import Mathlib

/-!
Verification development for the `read` operation of the normalized-cache
repository (`src/operations/read.ts`).

The traversal functions (`executeRead`, `traverseEntity`, `traverseValue`,
`addMissingField`, `addInvalidField`, `checkInvalidated`, `checkExpiresAt`)
are translated directly from the source.  The helpers the source imports
from modules that are not part of the provided sources (`resolveEntity`,
`getSelectionSet`, `getSelectionFields`, `isValid`, `resolveWrappedType`,
`maybeGetfieldType`, `identify`, `createReference`, the store lookup and
the per-field metadata maps) are modelled from the specification; each of
those carries a doc comment saying so.

Recursion in the source is unbounded (JavaScript); the embedding makes it
explicit with a fuel parameter.  A result of `none` means the recursion
did not finish within the given fuel; every other outcome of the source
is a `some`.  The JavaScript cyclic in-memory result object produced for
reference cycles is represented by the marker `Value.cyc k`, which stands
for the memoized (in-progress) result object of entity key `k`.
-/

namespace NCache

/-- Diagnostic path segment: an object field name or an array index
(source: `ctx.path` entries of type `string | number`). -/
inductive PathSeg where
  | fld (name : String)
  | idx (i : Nat)
deriving DecidableEq

/-- Runtime values manipulated by the read traversal.  `obj` is an object
carrying the per-field metadata maps `___expiresAt` / `___invalidated`
(an "object with meta" in the source); `plainObj` is an ordinary object
without metadata (for example a value produced by a computed `read`
function, or a result object); `ref` is the Reference marker carrying
only the target entity key; `cyc k` is the embedding's stand-in for the
memoized in-progress result object of entity `k`. -/
inductive Value where
  | undef
  | null
  | bool (b : Bool)
  | num (n : Int)
  | str (s : String)
  | ref (key : String)
  | obj (fields : List (String × Value)) (expiresAt : List (String × Int))
      (invalidated : List (String × Bool))
  | plainObj (fields : List (String × Value))
  | arr (elems : List Value)
  | cyc (key : String)

/-- Selection set node: `star` is the `*` selection, and each field is
(name, optional alias, optional nested selection set)
(source: `SelectionSetNode` of the selector AST). -/
inductive SelectionSetNode where
  | mk (star : Bool)
      (fields : List (String × Option String × Option SelectionSetNode))

mutual
/-- Schema value types (source: `ValueType` of `schema/types`).  Object
types carry field configurations; scalars and arrays may carry a name
(a named type is an entity type usable with `identify`). -/
inductive ValueType where
  | object (name : Option String) (fields : List (String × FieldConfig))
  | array (name : Option String) (ofType : Option ValueType)
  | boolean (name : Option String)
  | number (name : Option String)
  | string (name : Option String)
  | union (types : List ValueType)
  | nonNullable (ofType : ValueType)

/-- Field configuration: optional declared type and optional computed
`read` function.  The `read` function receives the entity's raw value and
the `toReference` helper (type name, optional id ↦ value).  The `write`
merge function is omitted: the read operation never consults it. -/
inductive FieldConfig where
  | mk (type : Option ValueType)
      (read : Option (Value → (String → Option String → Value) → Value))
end

/-- Declared type of a field configuration. -/
def FieldConfig.type : FieldConfig → Option ValueType
  | .mk t _ => t

/-- Computed `read` function of a field configuration. -/
def FieldConfig.read :
    FieldConfig → Option (Value → (String → Option String → Value) → Value)
  | .mk _ r => r

/-- Stored entity: key-derived id, value payload, entity-level expiry
timestamp (`-1` means "no expiry") and entity-level invalidation flag
(source: `Entity` of `types`). -/
structure Entity where
  id : String
  value : Value
  expiresAt : Int
  invalidated : Bool

/-- Modelled from the spec: the cache holds two independent entity stores
(confirmed and optimistic) addressed by the same keys, plus the set of
registered entity type names consulted by `identify` (the `Cache` class
itself is not part of the provided sources). -/
structure Cache where
  types : List String
  entities : List (String × Entity)
  optimisticEntities : List (String × Entity)

/-- Association-list lookup used to model JavaScript object indexing. -/
def lookupA {α : Type} : List (String × α) → String → Option α
  | [], _ => none
  | (k, v) :: t, f => if k = f then some v else lookupA t f

/-- Modelled from the spec: `cache.get(entityID, optimistic)` looks the
key up in the optimistic store when the flag is set, else in the
confirmed store (`Cache.get` is not part of the provided sources). -/
def cacheGet (cache : Cache) (k : String) (optimistic : Bool) : Option Entity :=
  lookupA (if optimistic then cache.optimisticEntities else cache.entities) k

/-- Modelled from the spec: `identify` derives the composite entity key
from a registered type name and an optional id, and returns nothing when
the type is not a registered entity type (`Cache.identify` is not part of
the provided sources; id canonicalization is out of scope, ids are
strings here). -/
def identify (cache : Cache) (tn : String) (id : Option String) :
    Option String :=
  if cache.types.contains tn then
    some (match id with
      | some i => tn ++ ":" ++ i
      | none => tn)
  else none

/-- Name of a schema type, when it has one. -/
def typeName : ValueType → Option String
  | .object n _ => n
  | .array n _ => n
  | .boolean n => n
  | .number n => n
  | .string n => n
  | .union _ => none
  | .nonNullable _ => none

/-- Modelled from the spec: `resolveEntity` resolves the root entity via
`identify` + `get`, yielding nothing when the type is unidentifiable or
no entity is stored under the key (`utils/cache.resolveEntity` is not
part of the provided sources). -/
def resolveEntity (cache : Cache) (ty : ValueType) (id : Option String)
    (optimistic : Bool) : Option Entity :=
  match typeName ty with
  | none => none
  | some n =>
    match identify cache n id with
    | none => none
    | some k => cacheGet cache k optimistic

/-- Modelled from the spec: a Reference is a minimal marker value carrying
only the target entity key (`utils/cache.createReference`). -/
def createReference (key : String) : Value := .ref key

/-- Whether a value is a Reference marker
(source helper `isReference`, modelled from the spec). -/
def isReference : Value → Bool
  | .ref _ => true
  | _ => false

/-- Whether a value is an object carrying field metadata maps
(source helper `isObjectWithMeta`, modelled from the spec). -/
def isObjectWithMeta : Value → Bool
  | .obj _ _ _ => true
  | _ => false

/-- Modelled from the spec: own-property test on a data object
(`utils/data.hasOwn`). -/
def hasOwn (fields : List (String × Value)) (f : String) : Bool :=
  (lookupA fields f).isSome

mutual
/-- Modelled from the spec: shallow shape validation of a raw value
against a schema type.  Base types accept `null`/`undefined`; the
non-nullable wrapper rejects them; a union is valid when some member is
(`schema/utils.isValid` is not part of the provided sources). -/
def isValid : ValueType → Value → Bool
  | .object _ _, v =>
    match v with
    | .null => true
    | .undef => true
    | .obj _ _ _ => true
    | .plainObj _ => true
    | _ => false
  | .array _ _, v =>
    match v with
    | .null => true
    | .undef => true
    | .arr _ => true
    | _ => false
  | .boolean _, v =>
    match v with
    | .null => true
    | .undef => true
    | .bool _ => true
    | _ => false
  | .number _, v =>
    match v with
    | .null => true
    | .undef => true
    | .num _ => true
    | _ => false
  | .string _, v =>
    match v with
    | .null => true
    | .undef => true
    | .str _ => true
    | _ => false
  | .union ts, v => anyValid ts v
  | .nonNullable t, v =>
    match v with
    | .null => false
    | .undef => false
    | _ => isValid t v

/-- Whether some member of a list of types validates the value. -/
def anyValid : List ValueType → Value → Bool
  | [], _ => false
  | t :: ts, v => isValid t v || anyValid ts v
end

mutual
/-- Modelled from the spec: unwrap union / non-nullable wrappers to the
concrete member type matching the value (first matching member by
declaration order; non-nullable unwraps unless the value is
null/undefined).  `schema/types.resolveWrappedType` is not part of the
provided sources. -/
def resolveWrappedType (t : ValueType) (v : Value) : ValueType :=
  match t with
  | .union ts =>
    match firstValid ts v with
    | some t2 => t2
    | none => t
  | .nonNullable t2 =>
    match v with
    | .null => t
    | .undef => t
    | _ => resolveWrappedType t2 v
  | _ => t

/-- First member of the list validating the value, recursively
unwrapped. -/
def firstValid : List ValueType → Value → Option ValueType
  | [], _ => none
  | t :: ts, v =>
    if isValid t v then some (resolveWrappedType t v) else firstValid ts v
end

/-- Modelled from the spec: field configuration of a field on an object
type, when the (resolved) type declares it
(`schema/utils.maybeGetfieldType`). -/
def maybeGetfieldType (ty : Option ValueType) (f : String) :
    Option FieldConfig :=
  match ty with
  | some (.object _ flds) => lookupA flds f
  | _ => none

/-- Modelled from the spec: `getSelectionSet` extracts the root selection
set of the selector document (`operations/shared.getSelectionSet`; the
document is modelled as its root selection set). -/
def getSelectionSet (select : Option SelectionSetNode) (_ty : ValueType) :
    Option SelectionSetNode :=
  select

/-- Insert or overwrite a selection entry, keeping first-occurrence
order (models JavaScript object key assignment). -/
def insertSelField
    (acc : List (String × Option String × Option SelectionSetNode))
    (name : String) (al : Option String) (sub : Option SelectionSetNode) :
    List (String × Option String × Option SelectionSetNode) :=
  if acc.any (fun e => e.1 == name) then
    acc.map (fun e => if e.1 == name then (name, al, sub) else e)
  else acc ++ [(name, al, sub)]

/-- Modelled from the spec: the fields a selection picks on the current
object value.  With no selection set, every field present on the value is
picked with no alias and no nested selection; with a selection set, the
explicitly listed fields are picked, and when `*` is present every
remaining field of the value is added with no nested selection
(`operations/shared.getSelectionFields` is not part of the provided
sources). -/
def getSelectionFields (_selector : Option SelectionSetNode)
    (ss : Option SelectionSetNode) (_ty : Option ValueType)
    (dataFields : List (String × Value)) :
    List (String × Option String × Option SelectionSetNode) :=
  match ss with
  | none => dataFields.map (fun p => (p.1, none, none))
  | some (.mk star sfs) =>
    let explicit := sfs.foldl (fun acc f => insertSelField acc f.1 f.2.1 f.2.2) []
    if star then
      explicit ++
        (dataFields.filter
          (fun p => !(explicit.any (fun e => e.1 == p.1)))).map
          (fun p => (p.1, none, none))
    else explicit

/-- Modelled from the spec: per-field `___expiresAt` lookup, defaulting to
"no expiry" (`-1`) for fields without a recorded timestamp. -/
def metaExpiresAt (m : List (String × Int)) (f : String) : Int :=
  (lookupA m f).getD (-1)

/-- Modelled from the spec: per-field `___invalidated` lookup, defaulting
to `false`. -/
def metaInvalidated (m : List (String × Bool)) (f : String) : Bool :=
  (lookupA m f).getD false

/-- Missing-field diagnostic (source: `MissingField`). -/
structure MissingField where
  path : List PathSeg

/-- Invalid-field diagnostic carrying the offending raw value
(source: `InvalidField`). -/
structure InvalidField where
  path : List PathSeg
  value : Value

/-- Read traversal context (source: `ReadContext`).  `fullEntityResults`
keeps the keys of entities whose (in-progress) full results are memoized;
the JavaScript map stores the result objects themselves, represented here
by the `Value.cyc` marker. -/
structure ReadCtx where
  cache : Cache
  expiresAt : Int
  invalidFields : List InvalidField
  invalidated : Bool
  missingFields : List MissingField
  fullEntityResults : List String
  optimistic : Bool
  path : List PathSeg
  selector : Option SelectionSetNode

/-- Source `addMissingField`: record a missing field at the current
path. -/
def addMissingField (ctx : ReadCtx) : ReadCtx :=
  { ctx with missingFields := ctx.missingFields ++ [⟨ctx.path⟩] }

/-- Source `addInvalidField`: record an invalid field at the current path
with the offending raw value. -/
def addInvalidField (ctx : ReadCtx) (v : Value) : ReadCtx :=
  { ctx with invalidFields := ctx.invalidFields ++ [⟨ctx.path, v⟩] }

/-- Source `checkInvalidated`: sticky OR of invalidation flags. -/
def checkInvalidated (ctx : ReadCtx) (b : Bool) : ReadCtx :=
  if b then { ctx with invalidated := true } else ctx

/-- Source `checkExpiresAt`: keep the minimum non-(-1) expiry seen so
far (`-1` is "no expiry"). -/
def checkExpiresAt (ctx : ReadCtx) (e : Int) : ReadCtx :=
  if e ≠ -1 ∧ (ctx.expiresAt = -1 ∨ e < ctx.expiresAt) then
    { ctx with expiresAt := e }
  else ctx

/-- Push a path segment (source: `ctx.path.push`). -/
def pushPath (ctx : ReadCtx) (s : PathSeg) : ReadCtx :=
  { ctx with path := ctx.path ++ [s] }

/-- Pop the last path segment (source: `ctx.path.pop`). -/
def popPath (ctx : ReadCtx) : ReadCtx :=
  { ctx with path := ctx.path.dropLast }

/-- The `toReference` helper handed to computed `read` functions
(source: `fieldReadCtx.toReference`, lines 173-176): identify the
type+id pair and wrap the key in a Reference, or yield `undefined`. -/
def toReferenceFn (cache : Cache) : String → Option String → Value :=
  fun tn id =>
    match identify cache tn id with
    | some entityID => createReference entityID
    | none => Value.undef

/-- Resolution of one selected field's value (source lines 166-183): a
declared computed `read` function, applied to the entity's raw value and
the `toReference` helper, wins unconditionally; otherwise the raw stored
value is used when the object has the property.  `none` means the field
value was not found. -/
def resolveFieldValue (cache : Cache) (typeField : Option FieldConfig)
    (dataFields : List (String × Value)) (data : Value) (fieldName : String) :
    Option Value :=
  match typeField with
  | some (.mk _ (some rf)) => some (rf data (toReferenceFn cache))
  | _ =>
    if hasOwn dataFields fieldName then lookupA dataFields fieldName else none

/-- Validation step of `traverseValue` (source lines 139-145): a declared
type either resolves to its concrete wrapped type when the value is
valid, or stays as-is while an invalid field is recorded. -/
def applyValidation (ty : Option ValueType) (data : Value) (ctx : ReadCtx) :
    Option ValueType × ReadCtx :=
  match ty with
  | none => (none, ctx)
  | some t =>
    if isValid t data then (some (resolveWrappedType t data), ctx)
    else (some t, addInvalidField ctx data)

/-- JavaScript object assignment `result[alias] = v` on the result
object: overwrite in place, else append. -/
def setField (fields : List (String × Value)) (k : String) (v : Value) :
    List (String × Value) :=
  if fields.any (fun e => e.1 == k) then
    fields.map (fun e => if e.1 == k then (k, v) else e)
  else fields ++ [(k, v)]

/-- Memoization step of the object branch (source lines 150-152): when a
whole entity is traversed with no selection set, record its (in-progress)
result under its entity key. -/
def memoCtx (ctx : ReadCtx) (ent : Option Entity)
    (ss : Option SelectionSetNode) : ReadCtx :=
  match ent with
  | some e =>
    if ss.isNone then
      { ctx with fullEntityResults := ctx.fullEntityResults ++ [e.id] }
    else ctx
  | none => ctx

/-- Element type selection of the array branch (source line 211):
`isArrayType(type) ? type.ofType : undefined`. -/
def arrayElemType (ty : Option ValueType) : Option ValueType :=
  match ty with
  | some (.array _ o) => o
  | _ => none

mutual
/-- Source `traverseEntity` (lines 105-126): look the entity up; when it
is absent record a missing field and return `undefined`; when there is no
selection set and the entity's result is already memoized, return the
memoized object; otherwise fold in the entity-level metadata and traverse
its value. -/
def traverseEntity (fuel : Nat) (ctx : ReadCtx) (entityID : String)
    (ty : Option ValueType) (ss : Option SelectionSetNode) :
    Option (Value × ReadCtx) :=
  match fuel with
  | 0 => none
  | f + 1 =>
    match cacheGet ctx.cache entityID ctx.optimistic with
    | none => some (.undef, addMissingField ctx)
    | some entity =>
      if ss.isNone && ctx.fullEntityResults.contains entity.id then
        some (.cyc entity.id, ctx)
      else
        traverseValue f
          (checkInvalidated (checkExpiresAt ctx entity.expiresAt)
            entity.invalidated) ss ty (some entity) entity.value

/-- Source `traverseValue`, entry (lines 128-145): a Reference is
followed transparently with the same selection set; otherwise the value
is validated against its declared type and traversal proceeds on the raw
value. -/
def traverseValue (fuel : Nat) (ctx : ReadCtx) (ss : Option SelectionSetNode)
    (ty : Option ValueType) (ent : Option Entity) (data : Value) :
    Option (Value × ReadCtx) :=
  match fuel with
  | 0 => none
  | f + 1 =>
    match data with
    | .ref key => traverseEntity f ctx key ty ss
    | _ =>
      traverseValueRest f (applyValidation ty data ctx).2 ss
        (applyValidation ty data ctx).1 ent data

/-- Source `traverseValue`, after validation (lines 147-223): objects
with metadata are traversed field by field (memoizing the entity result
when there is no selection set); arrays are traversed element-wise with
the array type's element type; every other value is returned as-is. -/
def traverseValueRest (fuel : Nat) (ctx : ReadCtx)
    (ss : Option SelectionSetNode) (ty : Option ValueType)
    (ent : Option Entity) (data : Value) : Option (Value × ReadCtx) :=
  match fuel with
  | 0 => none
  | f + 1 =>
    match data with
    | .obj dataFields expMap invMap =>
      match traverseFields f (memoCtx ctx ent ss) ty
          (.obj dataFields expMap invMap) dataFields expMap invMap
          (getSelectionFields ctx.selector ss ty dataFields) [] with
      | none => none
      | some (res, ctx2) => some (.plainObj res, ctx2)
    | .arr elems =>
      match traverseElems f ctx ss (arrayElemType ty) elems 0 with
      | none => none
      | some (vs, ctx2) => some (.arr vs, ctx2)
    | _ => some (data, ctx)

/-- Field loop of the object branch (source lines 161-205): process the
selected fields left to right, threading the context. -/
def traverseFields (fuel : Nat) (ctx : ReadCtx) (ty : Option ValueType)
    (data : Value) (dataFields : List (String × Value))
    (expMap : List (String × Int)) (invMap : List (String × Bool))
    (sels : List (String × Option String × Option SelectionSetNode))
    (acc : List (String × Value)) :
    Option (List (String × Value) × ReadCtx) :=
  match fuel with
  | 0 => none
  | f + 1 =>
    match sels with
    | [] => some (acc, ctx)
    | sf :: rest =>
      match traverseField f ctx ty data dataFields expMap invMap sf acc with
      | none => none
      | some (acc2, ctx2) =>
        traverseFields f ctx2 ty data dataFields expMap invMap rest acc2

/-- Body of the field loop for one selected field (source lines 162-204):
push the field onto the path, resolve the field value (computed `read`
function first, else raw stored value), then either fold in the field
metadata and traverse the value under the field's own selection set and
declared type, or record a missing field; finally pop the path. -/
def traverseField (fuel : Nat) (ctx : ReadCtx) (ty : Option ValueType)
    (data : Value) (dataFields : List (String × Value))
    (expMap : List (String × Int)) (invMap : List (String × Bool))
    (sf : String × Option String × Option SelectionSetNode)
    (acc : List (String × Value)) :
    Option (List (String × Value) × ReadCtx) :=
  match fuel with
  | 0 => none
  | f + 1 =>
    match resolveFieldValue ctx.cache (maybeGetfieldType ty sf.1) dataFields
        data sf.1 with
    | some fieldValue =>
      match traverseValue f
          (checkInvalidated
            (checkExpiresAt (pushPath ctx (.fld sf.1))
              (metaExpiresAt expMap sf.1))
            (metaInvalidated invMap sf.1))
          sf.2.2 ((maybeGetfieldType ty sf.1).bind FieldConfig.type) none
          fieldValue with
      | none => none
      | some (v, ctx4) => some (setField acc (sf.2.1.getD sf.1) v, popPath ctx4)
    | none => some (acc, popPath (addMissingField (pushPath ctx (.fld sf.1))))

/-- Element loop of the array branch (source lines 210-221): traverse
every element in order under the same selection set and the element type,
with its index pushed onto the path. -/
def traverseElems (fuel : Nat) (ctx : ReadCtx) (ss : Option SelectionSetNode)
    (ofType : Option ValueType) (elems : List Value) (i : Nat) :
    Option (List Value × ReadCtx) :=
  match fuel with
  | 0 => none
  | f + 1 =>
    match elems with
    | [] => some ([], ctx)
    | d :: ds =>
      match traverseValue f (pushPath ctx (.idx i)) ss ofType none d with
      | none => none
      | some (v, ctx1) =>
        match traverseElems f (popPath ctx1) ss ofType ds (i + 1) with
        | none => none
        | some (vs, ctx2) => some (v :: vs, ctx2)
end

/-- Unfolding equation for `traverseEntity` with positive fuel. -/
theorem traverseEntity_succ (f : Nat) (ctx : ReadCtx) (entityID : String)
    (ty : Option ValueType) (ss : Option SelectionSetNode) :
    traverseEntity (f + 1) ctx entityID ty ss =
      match cacheGet ctx.cache entityID ctx.optimistic with
      | none => some (.undef, addMissingField ctx)
      | some entity =>
        if ss.isNone && ctx.fullEntityResults.contains entity.id then
          some (.cyc entity.id, ctx)
        else
          traverseValue f
            (checkInvalidated (checkExpiresAt ctx entity.expiresAt)
              entity.invalidated) ss ty (some entity) entity.value := rfl

/-- Unfolding equation for `traverseValueRest` with positive fuel on an
object with metadata. -/
theorem traverseValueRest_obj (f : Nat) (ctx : ReadCtx)
    (ss : Option SelectionSetNode) (ty : Option ValueType)
    (ent : Option Entity) (dataFields : List (String × Value))
    (expMap : List (String × Int)) (invMap : List (String × Bool)) :
    traverseValueRest (f + 1) ctx ss ty ent (.obj dataFields expMap invMap) =
      match traverseFields f (memoCtx ctx ent ss) ty
          (.obj dataFields expMap invMap) dataFields expMap invMap
          (getSelectionFields ctx.selector ss ty dataFields) [] with
      | none => none
      | some (res, ctx2) => some (.plainObj res, ctx2) := rfl

/-- Unfolding equation for `traverseValueRest` with positive fuel on an
array. -/
theorem traverseValueRest_arr (f : Nat) (ctx : ReadCtx)
    (ss : Option SelectionSetNode) (ty : Option ValueType)
    (ent : Option Entity) (elems : List Value) :
    traverseValueRest (f + 1) ctx ss ty ent (.arr elems) =
      match traverseElems f ctx ss (arrayElemType ty) elems 0 with
      | none => none
      | some (vs, ctx2) => some (.arr vs, ctx2) := rfl

/-- Unfolding equation for `traverseFields` with positive fuel on a
non-empty selection list. -/
theorem traverseFields_cons (f : Nat) (ctx : ReadCtx) (ty : Option ValueType)
    (data : Value) (dataFields : List (String × Value))
    (expMap : List (String × Int)) (invMap : List (String × Bool))
    (sf : String × Option String × Option SelectionSetNode)
    (rest : List (String × Option String × Option SelectionSetNode))
    (acc : List (String × Value)) :
    traverseFields (f + 1) ctx ty data dataFields expMap invMap (sf :: rest)
        acc =
      match traverseField f ctx ty data dataFields expMap invMap sf acc with
      | none => none
      | some (acc2, ctx2) =>
        traverseFields f ctx2 ty data dataFields expMap invMap rest acc2 := rfl

/-- Unfolding equation for `traverseField` with positive fuel. -/
theorem traverseField_succ (f : Nat) (ctx : ReadCtx) (ty : Option ValueType)
    (data : Value) (dataFields : List (String × Value))
    (expMap : List (String × Int)) (invMap : List (String × Bool))
    (sf : String × Option String × Option SelectionSetNode)
    (acc : List (String × Value)) :
    traverseField (f + 1) ctx ty data dataFields expMap invMap sf acc =
      match resolveFieldValue ctx.cache (maybeGetfieldType ty sf.1) dataFields
          data sf.1 with
      | some fieldValue =>
        match traverseValue f
            (checkInvalidated
              (checkExpiresAt (pushPath ctx (.fld sf.1))
                (metaExpiresAt expMap sf.1))
              (metaInvalidated invMap sf.1))
            sf.2.2 ((maybeGetfieldType ty sf.1).bind FieldConfig.type) none
            fieldValue with
        | none => none
        | some (v, ctx4) =>
          some (setField acc (sf.2.1.getD sf.1) v, popPath ctx4)
      | none =>
        some (acc, popPath (addMissingField (pushPath ctx (.fld sf.1)))) := rfl

/-- Read options (source: `ReadOptions`). -/
structure ReadOptions where
  id : Option String
  select : Option SelectionSetNode

/-- Read result (source: `ReadResult`).  `none` in an `Option` field
models the JavaScript property being absent. -/
structure ReadResult where
  data : Option Value
  entityID : Option String
  expiresAt : Int
  invalidFields : Option (List InvalidField)
  invalidated : Bool
  missingFields : Option (List MissingField)
  selector : Option SelectionSetNode
  stale : Bool

/-- The empty result returned when the root entity cannot be resolved
(source lines 58-69). -/
def emptyReadResult (select : Option SelectionSetNode) : ReadResult :=
  { data := none
    entityID := none
    expiresAt := -1
    invalidFields := none
    invalidated := false
    missingFields := none
    selector := select
    stale := true }

/-- Source `executeRead` (lines 52-103): resolve the root entity (empty
result when absent), traverse it, and assemble the result with the
rolled-up expiry, invalidation and diagnostics; `stale` is true iff the
result is invalidated or its expiry is set and not in the future.
`now` stands for `Date.now()`; `fuel` bounds the recursion depth of the
embedding. -/
def executeRead (fuel : Nat) (cache : Cache) (ty : ValueType)
    (optimistic : Bool) (options : ReadOptions) (now : Int) :
    Option ReadResult :=
  match resolveEntity cache ty options.id optimistic with
  | none => some (emptyReadResult options.select)
  | some entity =>
    let ctx : ReadCtx :=
      { cache := cache
        expiresAt := -1
        invalidFields := []
        invalidated := false
        missingFields := []
        fullEntityResults := []
        optimistic := optimistic
        path := []
        selector := options.select }
    let ss := getSelectionSet options.select ty
    match traverseEntity fuel ctx entity.id (some ty) ss with
    | none => none
    | some (v, ctx2) =>
      some
        { data := some v
          entityID := some entity.id
          expiresAt := ctx2.expiresAt
          invalidFields :=
            if ctx2.invalidFields.isEmpty then none else some ctx2.invalidFields
          invalidated := ctx2.invalidated
          missingFields :=
            if ctx2.missingFields.isEmpty then none else some ctx2.missingFields
          selector := options.select
          stale := ctx2.invalidated ||
            (decide (ctx2.expiresAt ≠ -1) && decide (ctx2.expiresAt ≤ now)) }

/-! ### Normalization lemmas for the context operations -/

/-- Scalar form of `checkExpiresAt`: minimum of two timestamps where `-1`
means "no expiry". -/
def stepExpiresAt (a e : Int) : Int :=
  if e ≠ -1 ∧ (a = -1 ∨ e < a) then e else a

theorem checkExpiresAt_eq (ctx : ReadCtx) (e : Int) :
    checkExpiresAt ctx e = { ctx with expiresAt := stepExpiresAt ctx.expiresAt e } := by
  unfold checkExpiresAt stepExpiresAt
  split <;> rfl

theorem checkInvalidated_eq (ctx : ReadCtx) (b : Bool) :
    checkInvalidated ctx b = { ctx with invalidated := ctx.invalidated || b } := by
  unfold checkInvalidated
  cases b <;> simp

/-! ### Witness fixtures: a small concrete cache with a reference cycle,
a dangling reference and an expiring field -/

/-- Entity `A`: object with a reference to `B` and a scalar field `t`
expiring at time `5`. -/
def fixEntA : Entity :=
  ⟨"A", .obj [("b", .ref "B"), ("t", .str "hi")] [("b", -1), ("t", 5)]
    [("b", false), ("t", false)], -1, false⟩

/-- Entity `B`: object with a reference back to `A` (a cycle). -/
def fixEntB : Entity :=
  ⟨"B", .obj [("a", .ref "A")] [("a", -1)] [("a", false)], -1, false⟩

/-- Entity `D`: object with a dangling reference to the absent key
`Z`. -/
def fixEntD : Entity :=
  ⟨"D", .obj [("z", .ref "Z")] [("z", -1)] [("z", false)], -1, false⟩

/-- Concrete cache used by the witnesses. -/
def fixCache : Cache :=
  ⟨["A", "B", "D"], [("A", fixEntA), ("B", fixEntB), ("D", fixEntD)], []⟩

/-- Root entity type named `A`. -/
def fixTyA : ValueType := .object (some "A") []

/-- A fresh read context over `fixCache`. -/
def fixCtx : ReadCtx :=
  ⟨fixCache, -1, [], false, [], [], false, [], none⟩

/-! ### Claim C2 -/

/-- C2: for every read whose root entity is found, the returned result is
stale exactly when its rolled-up invalidated flag is set, or its rolled-up
`expiresAt` is not the "no expiry" value `-1` and is at most the current
time (source lines 98-100). -/
theorem C2_stale_iff_invalidated_or_expired (fuel : Nat) (cache : Cache)
    (ty : ValueType) (opt : Bool) (opts : ReadOptions) (now : Int)
    (res : ReadResult)
    (hroot : (resolveEntity cache ty opts.id opt).isSome = true)
    (h : executeRead fuel cache ty opt opts now = some res) :
    res.stale = true ↔
      (res.invalidated = true ∨ (res.expiresAt ≠ -1 ∧ res.expiresAt ≤ now)) := by
  unfold executeRead at h
  split at h
  · next heq => rw [heq] at hroot; simp at hroot
  · next ent heq =>
    simp only [getSelectionSet] at h
    split at h
    · exact absurd h (by simp)
    · next v ctx2 htr =>
      cases h
      simp [Bool.or_eq_true, Bool.and_eq_true, decide_eq_true_eq]

/-- Witness for C2 on the concrete cyclic cache: the read succeeds and the
stale flag matches the formula at time 3. -/
theorem C2_stale_witness :
    ((executeRead 20 fixCache fixTyA false ⟨none, none⟩ 3).getD
        (emptyReadResult none)).stale = true ↔
      (((executeRead 20 fixCache fixTyA false ⟨none, none⟩ 3).getD
          (emptyReadResult none)).invalidated = true ∨
        (((executeRead 20 fixCache fixTyA false ⟨none, none⟩ 3).getD
            (emptyReadResult none)).expiresAt ≠ -1 ∧
          ((executeRead 20 fixCache fixTyA false ⟨none, none⟩ 3).getD
            (emptyReadResult none)).expiresAt ≤ 3)) :=
  C2_stale_iff_invalidated_or_expired 20 fixCache fixTyA false ⟨none, none⟩ 3 _
    (by rfl) (by rfl)

/-! ### Claim C4 -/

/-- C4: when the root entity cannot be resolved (unidentifiable type/id or
no entity stored under the key), the read returns the empty result —
stale, no data, no entity id, not invalidated, no expiry, no diagnostics —
and does not fail (source lines 58-69). -/
theorem C4_unresolved_root_empty_result (fuel : Nat) (cache : Cache)
    (ty : ValueType) (opt : Bool) (opts : ReadOptions) (now : Int)
    (h : resolveEntity cache ty opts.id opt = none) :
    executeRead fuel cache ty opt opts now =
      some { data := none, entityID := none, expiresAt := -1,
             invalidFields := none, invalidated := false,
             missingFields := none, selector := opts.select, stale := true } := by
  unfold executeRead
  rw [h]
  rfl

/-- Witness for C4: reading an unnamed (unidentifiable) root type on the
concrete cache yields the empty result. -/
theorem C4_empty_witness :
    resolveEntity fixCache (.object none []) none false = none ∧
    executeRead 3 fixCache (.object none []) false ⟨none, none⟩ 0 =
      some { data := none, entityID := none, expiresAt := -1,
             invalidFields := none, invalidated := false,
             missingFields := none, selector := none, stale := true } :=
  ⟨rfl, C4_unresolved_root_empty_result 3 fixCache (.object none []) false
    ⟨none, none⟩ 0 rfl⟩

/-! ### Claim C5 -/

/-- C5: a Reference whose target entity key is absent from the consulted
store is followed into `traverseEntity`, which appends a MissingField
recording the current (referencing) path, returns `undefined` for the
result slot, and hands control back so traversal continues (source lines
111-116, 135-137, 226-228). -/
theorem C5_dangling_reference_missing_field (fuel : Nat) (ctx : ReadCtx)
    (k : String) (ty : Option ValueType) (ss : Option SelectionSetNode)
    (ent : Option Entity)
    (h : cacheGet ctx.cache k ctx.optimistic = none) :
    traverseValue (fuel + 2) ctx ss ty ent (.ref k) =
      traverseEntity (fuel + 1) ctx k ty ss
    ∧ traverseEntity (fuel + 1) ctx k ty ss =
        some (.undef,
          { ctx with missingFields := ctx.missingFields ++ [⟨ctx.path⟩] }) := by
  constructor
  · rfl
  · unfold traverseEntity
    rw [h]
    rfl

/-- Witness for C5: the concrete entity `D` holds a reference to the
absent key `Z`; following it records a missing field at the current
path. -/
theorem C5_dangling_witness :
    cacheGet fixCtx.cache "Z" fixCtx.optimistic = none ∧
    traverseEntity 3 fixCtx "Z" none none =
      some (.undef,
        { fixCtx with missingFields := fixCtx.missingFields ++ [⟨fixCtx.path⟩] }) :=
  ⟨rfl, (C5_dangling_reference_missing_field 2 fixCtx "Z" none none none rfl).2⟩

/-! ### Claim C6 -/

/-- C6: a non-Reference value with a declared type that fails validation
causes an InvalidField with the current path and the offending raw value
to be appended, after which traversal continues on the same raw value
(source lines 139-145, 230-232); and a raw value that is neither an
object with metadata nor an array is returned as-is, so it still appears
in the result data (source line 223). -/
theorem C6_invalid_field_recorded (fuel : Nat) (ctx : ReadCtx)
    (ss : Option SelectionSetNode) (t : ValueType) (ent : Option Entity)
    (data : Value)
    (href : isReference data = false) (hv : isValid t data = false) :
    traverseValue (fuel + 1) ctx ss (some t) ent data =
      traverseValueRest fuel
        { ctx with invalidFields := ctx.invalidFields ++ [⟨ctx.path, data⟩] }
        ss (some t) ent data
    ∧ ∀ (ctx2 : ReadCtx) (ty2 : Option ValueType) (ent2 : Option Entity),
        isObjectWithMeta data = false → (∀ l, data ≠ .arr l) →
        traverseValueRest (fuel + 1) ctx2 ss ty2 ent2 data =
          some (data, ctx2) := by
  constructor
  · cases data <;>
      simp_all [traverseValue, applyValidation, isReference, addInvalidField]
  · intro ctx2 ty2 ent2 hmeta harr
    cases data <;> simp_all [traverseValueRest, isObjectWithMeta]

/-- Witness for C6: a string value read against a boolean type records an
invalid field and the raw string flows on into the result. -/
theorem C6_invalid_witness :
    isReference (Value.str "x") = false ∧
    isValid (.boolean none) (.str "x") = false ∧
    traverseValue 4 fixCtx none (some (.boolean none)) none (.str "x") =
      traverseValueRest 3
        { fixCtx with
            invalidFields := fixCtx.invalidFields ++ [⟨fixCtx.path, .str "x"⟩] }
        none (some (.boolean none)) none (.str "x") ∧
    traverseValueRest 4 fixCtx none (some (.boolean none)) none (.str "x") =
      some (.str "x", fixCtx) := by
  refine ⟨rfl, rfl, ?_, ?_⟩
  · exact (C6_invalid_field_recorded 3 fixCtx none (.boolean none) none
      (.str "x") rfl rfl).1
  · exact (C6_invalid_field_recorded 3 fixCtx none (.boolean none) none
      (.str "x") rfl rfl).2 fixCtx (some (.boolean none)) none rfl
      (fun l h => Value.noConfusion h)

/-! ### Claim C7 -/

/-- C7: a field with a computed `read` function resolves to the value of
that function applied to the entity's raw value and the `toReference`
helper, independently of any raw stored value of that field; the helper
yields a Reference exactly for identifiable type+id pairs and `undefined`
otherwise; and a field without a `read` function resolves to the raw
stored value when present (source lines 169-183). -/
theorem C7_computed_field_resolution (cache : Cache) (t : Option ValueType)
    (rf : Value → (String → Option String → Value) → Value)
    (dataFields dataFields2 : List (String × Value)) (data : Value)
    (f : String) :
    resolveFieldValue cache (some (.mk t (some rf))) dataFields data f =
      some (rf data (toReferenceFn cache))
    ∧ resolveFieldValue cache (some (.mk t (some rf))) dataFields data f =
        resolveFieldValue cache (some (.mk t (some rf))) dataFields2 data f
    ∧ (∀ tn id k, identify cache tn id = some k →
        toReferenceFn cache tn id = createReference k)
    ∧ (∀ tn id, identify cache tn id = none →
        toReferenceFn cache tn id = .undef)
    ∧ (hasOwn dataFields f = true →
        resolveFieldValue cache (some (.mk t none)) dataFields data f =
          lookupA dataFields f)
    ∧ (hasOwn dataFields f = true →
        resolveFieldValue cache none dataFields data f = lookupA dataFields f) := by
  refine ⟨rfl, rfl, ?_, ?_, ?_, ?_⟩
  · intro tn id k h; simp [toReferenceFn, h]
  · intro tn id h; simp [toReferenceFn, h]
  · intro h; simp [resolveFieldValue, h]
  · intro h; simp [resolveFieldValue, h]

/-- Witness for C7 at concrete inputs: an identity computed field, an
identifiable and an unidentifiable `toReference` call, and a raw field
lookup. -/
theorem C7_computed_witness :
    resolveFieldValue fixCache (some (.mk none (some (fun d _ => d))))
      [("x", .num 1)] .null "x" = some .null
    ∧ toReferenceFn fixCache "B" (some "1") = createReference "B:1"
    ∧ toReferenceFn fixCache "Q" none = .undef
    ∧ resolveFieldValue fixCache none [("x", .num 1)] .null "x" =
        lookupA [("x", .num 1)] "x" := by
  obtain ⟨h1, _, h3, h4, _, h6⟩ :=
    C7_computed_field_resolution fixCache none (fun d _ => d)
      [("x", .num 1)] [] .null "x"
  exact ⟨h1, h3 "B" (some "1") "B:1" rfl, h4 "Q" none rfl, h6 rfl⟩

/-! ### Claim C10 -/

/-- C10: a selected field whose configuration declares a computed `read`
function always counts as found — its resolution is `some`, whatever the
stored raw value — and even when the function returns `undefined` the
field step records no missing field and stores `undefined` under the
field's alias (source lines 171-183, 200-202). -/
theorem C10_computed_field_never_missing (fuel : Nat) (ctx : ReadCtx)
    (ty : Option ValueType) (data : Value) (dataFields : List (String × Value))
    (expMap : List (String × Int)) (invMap : List (String × Bool))
    (fieldName : String) (al : Option String) (subSS : Option SelectionSetNode)
    (acc : List (String × Value)) (t : Option ValueType)
    (rf : Value → (String → Option String → Value) → Value)
    (hfc : maybeGetfieldType ty fieldName = some (.mk t (some rf))) :
    (resolveFieldValue ctx.cache (maybeGetfieldType ty fieldName) dataFields
      data fieldName).isSome = true
    ∧ (rf data (toReferenceFn ctx.cache) = .undef →
        ∀ res, traverseField (fuel + 3) ctx ty data dataFields expMap invMap
            (fieldName, al, subSS) acc = some res →
          res.2.missingFields = ctx.missingFields ∧
          res.1 = setField acc (al.getD fieldName) .undef) := by
  constructor
  · rw [hfc]; rfl
  · intro hundef res h
    unfold traverseField at h
    simp only [hfc, pushPath] at h
    rw [show resolveFieldValue ctx.cache (some (.mk t (some rf))) dataFields
        data fieldName = some (rf data (toReferenceFn ctx.cache)) from rfl,
      hundef] at h
    unfold traverseValue at h
    unfold traverseValueRest at h
    simp only [Option.bind, FieldConfig.type, applyValidation,
      checkExpiresAt_eq, checkInvalidated_eq] at h
    cases t with
    | none =>
      cases h
      simp [popPath]
    | some t0 =>
      by_cases hv : isValid t0 .undef = true
      · simp only [if_pos hv] at h
        cases h
        simp [popPath]
      · simp only [if_neg hv] at h
        cases h
        simp [popPath, addInvalidField]

/-- Witness for C10: a computed field returning `undefined` on an object
that does not store it raw — the step finds the field and records nothing
missing. -/
theorem C10_computed_witness :
    maybeGetfieldType (some (.object none [("c", .mk none (some (fun _ _ => .undef)))]))
      "c" = some (.mk none (some (fun _ _ => .undef)))
    ∧ (resolveFieldValue fixCtx.cache
        (maybeGetfieldType
          (some (.object none [("c", .mk none (some (fun _ _ => .undef)))])) "c")
        [] .null "c").isSome = true
    ∧ ((traverseField 5 fixCtx
          (some (.object none [("c", .mk none (some (fun _ _ => .undef)))]))
          .null [] [] [] ("c", none, none) []).getD ([], fixCtx)).2.missingFields =
        fixCtx.missingFields := by
  have h := C10_computed_field_never_missing 2 fixCtx
    (some (.object none [("c", .mk none (some (fun _ _ => .undef)))]))
    .null [] [] [] "c" none none [] none (fun _ _ => .undef) rfl
  exact ⟨rfl, h.1, (h.2 rfl _ (by rfl)).1⟩

/-! ### Claim C8 -/

/-- Unfolding equation for `traverseElems` on a non-empty list. -/
theorem traverseElems_cons (f : Nat) (ctx : ReadCtx)
    (ss : Option SelectionSetNode) (oty : Option ValueType) (d : Value)
    (ds : List Value) (i : Nat) :
    traverseElems (f + 1) ctx ss oty (d :: ds) i =
      (match traverseValue f (pushPath ctx (.idx i)) ss oty none d with
       | none => none
       | some (v, ctx1) =>
         match traverseElems f (popPath ctx1) ss oty ds (i + 1) with
         | none => none
         | some (vs, ctx2) => some (v :: vs, ctx2)) := rfl

/-- Element traversal preserves the number and order of elements. -/
theorem traverseElems_length (g : Nat) :
    ∀ (ctx : ReadCtx) (ss : Option SelectionSetNode) (oty : Option ValueType)
      (es : List Value) (j : Nat) (vs : List Value) (ctx2 : ReadCtx),
      traverseElems g ctx ss oty es j = some (vs, ctx2) →
        vs.length = es.length := by
  induction g with
  | zero => intro ctx ss oty es j vs ctx2 h; exact absurd h (by simp [traverseElems])
  | succ f ih =>
    intro ctx ss oty es j vs ctx2 h
    cases es with
    | nil =>
      unfold traverseElems at h
      cases h
      rfl
    | cons d ds =>
      rw [traverseElems_cons] at h
      cases hv : traverseValue f (pushPath ctx (.idx j)) ss oty none d with
      | none => simp [hv] at h
      | some p =>
        obtain ⟨v, c1⟩ := p
        simp only [hv] at h
        cases he : traverseElems f (popPath c1) ss oty ds (j + 1) with
        | none => simp [he] at h
        | some q =>
          obtain ⟨ws, c2⟩ := q
          simp only [he] at h
          cases h
          simp only [List.length_cons]
          exact congrArg (· + 1) (ih (popPath c1) ss oty ds (j + 1) ws ctx2 he)

/-- C8: an array value is traversed element-wise — the result is the
array of the traversals of the elements, every element is traversed under
the same selection set and the array type's element type (no type when
the static type is not an array type), with its index pushed onto the
diagnostic path, and the result has the same length in the same order
(source lines 210-221). -/
theorem C8_array_traversal (fuel : Nat) (ctx : ReadCtx)
    (ss : Option SelectionSetNode) (ty : Option ValueType)
    (ent : Option Entity) (elems : List Value) (d : Value) (ds : List Value)
    (i : Nat) (oty : Option ValueType) :
    traverseValueRest (fuel + 1) ctx ss ty ent (.arr elems) =
      (traverseElems fuel ctx ss (arrayElemType ty) elems 0).map
        (fun p => (.arr p.1, p.2))
    ∧ traverseElems (fuel + 1) ctx ss oty (d :: ds) i =
        (match traverseValue fuel (pushPath ctx (.idx i)) ss oty none d with
         | none => none
         | some (v, ctx1) =>
           match traverseElems fuel (popPath ctx1) ss oty ds (i + 1) with
           | none => none
           | some (vs, ctx2) => some (v :: vs, ctx2))
    ∧ (∀ (g : Nat) (ctx0 : ReadCtx) (es : List Value) (j : Nat)
        (vs : List Value) (ctx2 : ReadCtx),
        traverseElems g ctx0 ss oty es j = some (vs, ctx2) →
          vs.length = es.length) := by
  refine ⟨?_, rfl, ?_⟩
  · rw [traverseValueRest_arr]
    cases h : traverseElems fuel ctx ss (arrayElemType ty) elems 0 with
    | none => simp [h]
    | some p => simp [h]
  · intro g ctx0 es j vs ctx2 h
    exact traverseElems_length g ctx0 ss oty es j vs ctx2 h

/-- Witness for C8 on a concrete two-element array with a number element
type: the equation holds and the result keeps both elements. -/
theorem C8_array_witness :
    traverseValueRest 6 fixCtx none (some (.array none (some (.number none))))
      none (.arr [.num 1, .str "s"]) =
      (traverseElems 5 fixCtx none (some (.number none)) [.num 1, .str "s"] 0).map
        (fun p => (.arr p.1, p.2))
    ∧ (((traverseElems 5 fixCtx none (some (.number none)) [.num 1, .str "s"] 0).getD
        ([], fixCtx)).1).length = 2 := by
  have h := C8_array_traversal 5 fixCtx none
    (some (.array none (some (.number none)))) none [.num 1, .str "s"]
    .undef [] 0 (some (.number none))
  exact ⟨h.1, h.2.2 5 fixCtx [.num 1, .str "s"] 0 _ _ (by rfl)⟩

/-! ### Frame preservation: the traversal never touches the cache, the
optimistic flag or the root selector, and only ever appends to the
memoization table -/

/-- Relation between an input and an output context: the cache, the
optimistic flag and the root selector are unchanged, and the memoized
entity keys only grow at the end. -/
def framePreserved (ctx ctx2 : ReadCtx) : Prop :=
  ctx2.cache = ctx.cache ∧ ctx2.optimistic = ctx.optimistic ∧
  ctx2.selector = ctx.selector ∧
  ∃ ms, ctx2.fullEntityResults = ctx.fullEntityResults ++ ms

theorem framePreserved_refl (ctx : ReadCtx) : framePreserved ctx ctx :=
  ⟨rfl, rfl, rfl, [], by simp⟩

theorem framePreserved_trans {a b c : ReadCtx} (h1 : framePreserved a b)
    (h2 : framePreserved b c) : framePreserved a c := by
  obtain ⟨e1, e2, e3, ms1, hm1⟩ := h1
  obtain ⟨f1, f2, f3, ms2, hm2⟩ := h2
  exact ⟨f1.trans e1, f2.trans e2, f3.trans e3, ms1 ++ ms2,
    by rw [hm2, hm1, List.append_assoc]⟩

theorem framePreserved_addMissingField (ctx : ReadCtx) :
    framePreserved ctx (addMissingField ctx) :=
  ⟨rfl, rfl, rfl, [], by simp [addMissingField]⟩

theorem framePreserved_addInvalidField (ctx : ReadCtx) (v : Value) :
    framePreserved ctx (addInvalidField ctx v) :=
  ⟨rfl, rfl, rfl, [], by simp [addInvalidField]⟩

theorem framePreserved_checkExpiresAt (ctx : ReadCtx) (e : Int) :
    framePreserved ctx (checkExpiresAt ctx e) := by
  rw [checkExpiresAt_eq]
  exact ⟨rfl, rfl, rfl, [], by simp⟩

theorem framePreserved_checkInvalidated (ctx : ReadCtx) (b : Bool) :
    framePreserved ctx (checkInvalidated ctx b) := by
  rw [checkInvalidated_eq]
  exact ⟨rfl, rfl, rfl, [], by simp⟩

theorem framePreserved_pushPath (ctx : ReadCtx) (s : PathSeg) :
    framePreserved ctx (pushPath ctx s) :=
  ⟨rfl, rfl, rfl, [], by simp [pushPath]⟩

theorem framePreserved_popPath (ctx : ReadCtx) :
    framePreserved ctx (popPath ctx) :=
  ⟨rfl, rfl, rfl, [], by simp [popPath]⟩

theorem framePreserved_memo (ctx : ReadCtx) (k : String) :
    framePreserved ctx
      { ctx with fullEntityResults := ctx.fullEntityResults ++ [k] } :=
  ⟨rfl, rfl, rfl, [k], rfl⟩

theorem framePreserved_memoCtx (ctx : ReadCtx) (ent : Option Entity)
    (ss : Option SelectionSetNode) :
    framePreserved ctx (memoCtx ctx ent ss) := by
  cases ent with
  | none => exact framePreserved_refl ctx
  | some e =>
    rw [show memoCtx ctx (some e) ss =
      if ss.isNone then
        { ctx with fullEntityResults := ctx.fullEntityResults ++ [e.id] }
      else ctx from rfl]
    by_cases hss : ss.isNone = true
    · rw [if_pos hss]
      exact framePreserved_memo ctx e.id
    · rw [if_neg hss]
      exact framePreserved_refl ctx

theorem framePreserved_validation (ty : Option ValueType) (data : Value)
    (ctx : ReadCtx) : framePreserved ctx (applyValidation ty data ctx).2 := by
  unfold applyValidation
  cases ty with
  | none => exact framePreserved_refl ctx
  | some t =>
    by_cases hv : isValid t data = true
    · simp only [if_pos hv]
      exact framePreserved_refl ctx
    · simp only [if_neg hv]
      exact framePreserved_addInvalidField ctx data

/-- The whole read traversal preserves the frame: for every one of the
mutually recursive traversal functions, a successful run leaves the
cache, the optimistic flag and the root selector unchanged and only
appends to the memoization table. -/
theorem readFrame (fuel : Nat) :
    (∀ (ctx : ReadCtx) (entityID : String) (ty : Option ValueType)
      (ss : Option SelectionSetNode) (v : Value) (ctx2 : ReadCtx),
      traverseEntity fuel ctx entityID ty ss = some (v, ctx2) →
      framePreserved ctx ctx2)
    ∧ (∀ (ctx : ReadCtx) (ss : Option SelectionSetNode) (ty : Option ValueType)
      (ent : Option Entity) (data : Value) (v : Value) (ctx2 : ReadCtx),
      traverseValue fuel ctx ss ty ent data = some (v, ctx2) →
      framePreserved ctx ctx2)
    ∧ (∀ (ctx : ReadCtx) (ss : Option SelectionSetNode) (ty : Option ValueType)
      (ent : Option Entity) (data : Value) (v : Value) (ctx2 : ReadCtx),
      traverseValueRest fuel ctx ss ty ent data = some (v, ctx2) →
      framePreserved ctx ctx2)
    ∧ (∀ (ctx : ReadCtx) (ty : Option ValueType) (data : Value)
      (dataFields : List (String × Value)) (expMap : List (String × Int))
      (invMap : List (String × Bool))
      (sels : List (String × Option String × Option SelectionSetNode))
      (acc res : List (String × Value)) (ctx2 : ReadCtx),
      traverseFields fuel ctx ty data dataFields expMap invMap sels acc =
        some (res, ctx2) → framePreserved ctx ctx2)
    ∧ (∀ (ctx : ReadCtx) (ty : Option ValueType) (data : Value)
      (dataFields : List (String × Value)) (expMap : List (String × Int))
      (invMap : List (String × Bool))
      (sf : String × Option String × Option SelectionSetNode)
      (acc res : List (String × Value)) (ctx2 : ReadCtx),
      traverseField fuel ctx ty data dataFields expMap invMap sf acc =
        some (res, ctx2) → framePreserved ctx ctx2)
    ∧ (∀ (ctx : ReadCtx) (ss : Option SelectionSetNode)
      (oty : Option ValueType) (elems : List Value) (i : Nat)
      (vs : List Value) (ctx2 : ReadCtx),
      traverseElems fuel ctx ss oty elems i = some (vs, ctx2) →
      framePreserved ctx ctx2) := by
  induction fuel with
  | zero =>
    refine ⟨?_, ?_, ?_, ?_, ?_, ?_⟩ <;>
      · intros
        rename_i h
        simp [traverseEntity, traverseValue, traverseValueRest,
          traverseFields, traverseField, traverseElems] at h
  | succ f ih =>
    obtain ⟨ihE, ihV, ihR, ihFs, ihF, ihEl⟩ := ih
    refine ⟨?_, ?_, ?_, ?_, ?_, ?_⟩
    · -- traverseEntity
      intro ctx entityID ty ss v ctx2 h
      rw [traverseEntity_succ] at h
      cases hget : cacheGet ctx.cache entityID ctx.optimistic with
      | none =>
        simp only [hget] at h
        cases h
        exact framePreserved_addMissingField ctx
      | some entity =>
        simp only [hget] at h
        by_cases hc :
            (ss.isNone && ctx.fullEntityResults.contains entity.id) = true
        · rw [if_pos hc] at h
          cases h
          exact framePreserved_refl ctx
        · rw [if_neg hc] at h
          exact framePreserved_trans
            (framePreserved_trans (framePreserved_checkExpiresAt ctx _)
              (framePreserved_checkInvalidated _ _))
            (ihV _ _ _ _ _ _ _ h)
    · -- traverseValue
      intro ctx ss ty ent data v ctx2 h
      unfold traverseValue at h
      cases data with
      | ref key => exact ihE _ _ _ _ _ _ h
      | undef =>
        exact framePreserved_trans (framePreserved_validation ty .undef ctx)
          (ihR _ _ _ _ _ _ _ h)
      | null =>
        exact framePreserved_trans (framePreserved_validation ty .null ctx)
          (ihR _ _ _ _ _ _ _ h)
      | bool b =>
        exact framePreserved_trans (framePreserved_validation ty (.bool b) ctx)
          (ihR _ _ _ _ _ _ _ h)
      | num n =>
        exact framePreserved_trans (framePreserved_validation ty (.num n) ctx)
          (ihR _ _ _ _ _ _ _ h)
      | str s =>
        exact framePreserved_trans (framePreserved_validation ty (.str s) ctx)
          (ihR _ _ _ _ _ _ _ h)
      | obj dataFields expMap invMap =>
        exact framePreserved_trans
          (framePreserved_validation ty (.obj dataFields expMap invMap) ctx)
          (ihR _ _ _ _ _ _ _ h)
      | plainObj flds =>
        exact framePreserved_trans
          (framePreserved_validation ty (.plainObj flds) ctx)
          (ihR _ _ _ _ _ _ _ h)
      | arr elems =>
        exact framePreserved_trans
          (framePreserved_validation ty (.arr elems) ctx)
          (ihR _ _ _ _ _ _ _ h)
      | cyc k =>
        exact framePreserved_trans (framePreserved_validation ty (.cyc k) ctx)
          (ihR _ _ _ _ _ _ _ h)
    · -- traverseValueRest
      intro ctx ss ty ent data v ctx2 h
      cases data with
      | obj dataFields expMap invMap =>
        rw [traverseValueRest_obj] at h
        cases hfs : traverseFields f (memoCtx ctx ent ss) ty
            (.obj dataFields expMap invMap) dataFields expMap invMap
            (getSelectionFields ctx.selector ss ty dataFields) [] with
        | none => rw [hfs] at h; exact absurd h (by simp)
        | some p =>
          obtain ⟨res0, c2⟩ := p
          rw [hfs] at h
          cases h
          exact framePreserved_trans (framePreserved_memoCtx ctx ent ss)
            (ihFs _ _ _ _ _ _ _ _ _ _ hfs)
      | arr elems =>
        rw [traverseValueRest_arr] at h
        cases hel : traverseElems f ctx ss (arrayElemType ty) elems 0 with
        | none => rw [hel] at h; exact absurd h (by simp)
        | some p =>
          obtain ⟨vs0, c2⟩ := p
          rw [hel] at h
          cases h
          exact ihEl _ _ _ _ _ _ _ hel
      | undef =>
        rw [show traverseValueRest (f + 1) ctx ss ty ent .undef =
          some (.undef, ctx) from rfl] at h
        cases h
        exact framePreserved_refl ctx
      | null =>
        rw [show traverseValueRest (f + 1) ctx ss ty ent .null =
          some (.null, ctx) from rfl] at h
        cases h
        exact framePreserved_refl ctx
      | bool b =>
        rw [show traverseValueRest (f + 1) ctx ss ty ent (.bool b) =
          some (.bool b, ctx) from rfl] at h
        cases h
        exact framePreserved_refl ctx
      | num n =>
        rw [show traverseValueRest (f + 1) ctx ss ty ent (.num n) =
          some (.num n, ctx) from rfl] at h
        cases h
        exact framePreserved_refl ctx
      | str s =>
        rw [show traverseValueRest (f + 1) ctx ss ty ent (.str s) =
          some (.str s, ctx) from rfl] at h
        cases h
        exact framePreserved_refl ctx
      | ref key =>
        rw [show traverseValueRest (f + 1) ctx ss ty ent (.ref key) =
          some (.ref key, ctx) from rfl] at h
        cases h
        exact framePreserved_refl ctx
      | plainObj flds =>
        rw [show traverseValueRest (f + 1) ctx ss ty ent (.plainObj flds) =
          some (.plainObj flds, ctx) from rfl] at h
        cases h
        exact framePreserved_refl ctx
      | cyc k =>
        rw [show traverseValueRest (f + 1) ctx ss ty ent (.cyc k) =
          some (.cyc k, ctx) from rfl] at h
        cases h
        exact framePreserved_refl ctx
    · -- traverseFields
      intro ctx ty data dataFields expMap invMap sels acc res ctx2 h
      cases sels with
      | nil =>
        rw [show traverseFields (f + 1) ctx ty data dataFields expMap invMap
          [] acc = some (acc, ctx) from rfl] at h
        cases h
        exact framePreserved_refl ctx
      | cons sf rest =>
        rw [traverseFields_cons] at h
        cases hf : traverseField f ctx ty data dataFields expMap invMap sf
            acc with
        | none => rw [hf] at h; exact absurd h (by simp)
        | some p =>
          obtain ⟨acc2, ctxF⟩ := p
          simp only [hf] at h
          exact framePreserved_trans (ihF _ _ _ _ _ _ _ _ _ _ hf)
            (ihFs _ _ _ _ _ _ _ _ _ _ h)
    · -- traverseField
      intro ctx ty data dataFields expMap invMap sf acc res ctx2 h
      rw [traverseField_succ] at h
      cases hrv : resolveFieldValue ctx.cache
          (maybeGetfieldType ty sf.1) dataFields data sf.1 with
      | none =>
        simp only [hrv] at h
        cases h
        exact framePreserved_trans
          (framePreserved_trans (framePreserved_pushPath ctx _)
            (framePreserved_addMissingField _))
          (framePreserved_popPath _)
      | some fieldValue =>
        simp only [hrv] at h
        cases htv : traverseValue f
            (checkInvalidated
              (checkExpiresAt (pushPath ctx (.fld sf.1))
                (metaExpiresAt expMap sf.1))
              (metaInvalidated invMap sf.1))
            sf.2.2 ((maybeGetfieldType ty sf.1).bind FieldConfig.type) none
            fieldValue with
        | none => rw [htv] at h; exact absurd h (by simp)
        | some p =>
          obtain ⟨v, ctx4⟩ := p
          simp only [htv] at h
          cases h
          refine framePreserved_trans ?_ (framePreserved_popPath ctx4)
          refine framePreserved_trans ?_ (ihV _ _ _ _ _ _ _ htv)
          exact framePreserved_trans (framePreserved_pushPath ctx _)
            (framePreserved_trans (framePreserved_checkExpiresAt _ _)
              (framePreserved_checkInvalidated _ _))
    · -- traverseElems
      intro ctx ss oty elems i vs ctx2 h
      cases elems with
      | nil =>
        rw [show traverseElems (f + 1) ctx ss oty [] i = some ([], ctx)
          from rfl] at h
        cases h
        exact framePreserved_refl ctx
      | cons d ds =>
        rw [traverseElems_cons] at h
        cases htv : traverseValue f (pushPath ctx (.idx i)) ss oty none d with
        | none => rw [htv] at h; exact absurd h (by simp)
        | some p =>
          obtain ⟨v, c1⟩ := p
          simp only [htv] at h
          cases hel : traverseElems f (popPath c1) ss oty ds (i + 1) with
          | none => rw [hel] at h; exact absurd h (by simp)
          | some q =>
            obtain ⟨ws, c2⟩ := q
            simp only [hel] at h
            cases h
            refine framePreserved_trans
              (framePreserved_trans (framePreserved_pushPath ctx _)
                (ihV _ _ _ _ _ _ _ htv)) ?_
            exact framePreserved_trans (framePreserved_popPath c1)
              (ihEl _ _ _ _ _ _ _ hel)

/-! ### Claim C9 -/

/-- C9: the read traversal never modifies the cache.  Computed `read`
functions are pure by construction of the embedding (they receive only
the raw value and the `toReference` helper); a successful traversal
returns a context whose cache — the registered types, the confirmed
store and the optimistic store — is exactly the input cache, so every
entity of both stores is unchanged. -/
theorem C9_read_preserves_cache (fuel : Nat) (ctx : ReadCtx)
    (entityID : String) (ty : Option ValueType) (ss : Option SelectionSetNode)
    (v : Value) (ctx2 : ReadCtx)
    (h : traverseEntity fuel ctx entityID ty ss = some (v, ctx2)) :
    ctx2.cache = ctx.cache ∧
    (∀ k b, cacheGet ctx2.cache k b = cacheGet ctx.cache k b) := by
  have hf := (readFrame fuel).1 ctx entityID ty ss v ctx2 h
  exact ⟨hf.1, fun k b => by rw [hf.1]⟩

/-- Witness for C9: the concrete cyclic read leaves the cache of the
returned context equal to the input cache. -/
theorem C9_preserves_witness :
    ((traverseEntity 18 fixCtx "A" (some fixTyA) none).getD
      (.undef, fixCtx)).2.cache = fixCtx.cache :=
  (C9_read_preserves_cache 18 fixCtx "A" (some fixTyA) none _ _ (by rfl)).1

/-! ### Visited-metadata collector for claim C3.

The claim speaks about "the fields actually visited" by a read.  The
collector below replays exactly the control flow of the traversal —
which depends only on the cache, the optimistic flag, the root selector
and the memoization table — and records, in visit order, every metadata
check the traversal performs: the entity-level check of lines 122-123 and
the field-level check of lines 186-187. -/

/-- One metadata check performed by the traversal: entity-level
(`traverseEntity` lines 122-123) or field-level (lines 186-187). -/
structure Check where
  entityLevel : Bool
  exp : Int
  inv : Bool

/-- Type component of the validation step (the part of `applyValidation`
that does not touch the context). -/
def validatedType (ty : Option ValueType) (data : Value) : Option ValueType :=
  match ty with
  | none => none
  | some t =>
    if isValid t data then some (resolveWrappedType t data) else some t

theorem applyValidation_fst (ty : Option ValueType) (data : Value)
    (ctx : ReadCtx) : (applyValidation ty data ctx).1 = validatedType ty data := by
  cases ty with
  | none => rfl
  | some t =>
    by_cases hv : isValid t data = true <;>
      simp [applyValidation, validatedType, hv]

/-- Memoization-table component of `memoCtx`. -/
def memoListStep (memo : List String) (ent : Option Entity)
    (ss : Option SelectionSetNode) : List String :=
  match ent with
  | some e => if ss.isNone then memo ++ [e.id] else memo
  | none => memo

theorem memoCtx_fullEntityResults (ctx : ReadCtx) (ent : Option Entity)
    (ss : Option SelectionSetNode) :
    (memoCtx ctx ent ss).fullEntityResults =
      memoListStep ctx.fullEntityResults ent ss := by
  cases ent with
  | none => rfl
  | some e =>
    by_cases hss : ss.isNone = true <;>
      simp [memoCtx, memoListStep, hss]

mutual
/-- Checks collected by `traverseEntity`. -/
def collectEntity (fuel : Nat) (cache : Cache) (opt : Bool)
    (sel : Option SelectionSetNode) (memo : List String) (entityID : String)
    (ty : Option ValueType) (ss : Option SelectionSetNode) :
    Option (List Check × List String) :=
  match fuel with
  | 0 => none
  | f + 1 =>
    match cacheGet cache entityID opt with
    | none => some ([], memo)
    | some entity =>
      if ss.isNone && memo.contains entity.id then some ([], memo)
      else
        match collectValue f cache opt sel memo ss ty (some entity)
            entity.value with
        | none => none
        | some (L, memo2) =>
          some (⟨true, entity.expiresAt, entity.invalidated⟩ :: L, memo2)

/-- Checks collected by `traverseValue`. -/
def collectValue (fuel : Nat) (cache : Cache) (opt : Bool)
    (sel : Option SelectionSetNode) (memo : List String)
    (ss : Option SelectionSetNode) (ty : Option ValueType)
    (ent : Option Entity) (data : Value) : Option (List Check × List String) :=
  match fuel with
  | 0 => none
  | f + 1 =>
    match data with
    | .ref key => collectEntity f cache opt sel memo key ty ss
    | _ =>
      collectValueRest f cache opt sel memo ss (validatedType ty data) ent
        data

/-- Checks collected by `traverseValueRest`. -/
def collectValueRest (fuel : Nat) (cache : Cache) (opt : Bool)
    (sel : Option SelectionSetNode) (memo : List String)
    (ss : Option SelectionSetNode) (ty : Option ValueType)
    (ent : Option Entity) (data : Value) : Option (List Check × List String) :=
  match fuel with
  | 0 => none
  | f + 1 =>
    match data with
    | .obj dataFields expMap invMap =>
      collectFields f cache opt sel (memoListStep memo ent ss) ty
        (.obj dataFields expMap invMap) dataFields expMap invMap
        (getSelectionFields sel ss ty dataFields)
    | .arr elems =>
      collectElems f cache opt sel memo ss (arrayElemType ty) elems
    | _ => some ([], memo)

/-- Checks collected by `traverseFields`. -/
def collectFields (fuel : Nat) (cache : Cache) (opt : Bool)
    (sel : Option SelectionSetNode) (memo : List String)
    (ty : Option ValueType) (data : Value)
    (dataFields : List (String × Value)) (expMap : List (String × Int))
    (invMap : List (String × Bool))
    (sels : List (String × Option String × Option SelectionSetNode)) :
    Option (List Check × List String) :=
  match fuel with
  | 0 => none
  | f + 1 =>
    match sels with
    | [] => some ([], memo)
    | sf :: rest =>
      match collectField f cache opt sel memo ty data dataFields expMap
          invMap sf with
      | none => none
      | some (L1, m1) =>
        match collectFields f cache opt sel m1 ty data dataFields expMap
            invMap rest with
        | none => none
        | some (L2, m2) => some (L1 ++ L2, m2)

/-- Checks collected by `traverseField`. -/
def collectField (fuel : Nat) (cache : Cache) (opt : Bool)
    (sel : Option SelectionSetNode) (memo : List String)
    (ty : Option ValueType) (data : Value)
    (dataFields : List (String × Value)) (expMap : List (String × Int))
    (invMap : List (String × Bool))
    (sf : String × Option String × Option SelectionSetNode) :
    Option (List Check × List String) :=
  match fuel with
  | 0 => none
  | f + 1 =>
    match resolveFieldValue cache (maybeGetfieldType ty sf.1) dataFields data
        sf.1 with
    | some fieldValue =>
      match collectValue f cache opt sel memo sf.2.2
          ((maybeGetfieldType ty sf.1).bind FieldConfig.type) none
          fieldValue with
      | none => none
      | some (L, m2) =>
        some (⟨false, metaExpiresAt expMap sf.1, metaInvalidated invMap sf.1⟩
          :: L, m2)
    | none => some ([], memo)

/-- Checks collected by `traverseElems`. -/
def collectElems (fuel : Nat) (cache : Cache) (opt : Bool)
    (sel : Option SelectionSetNode) (memo : List String)
    (ss : Option SelectionSetNode) (oty : Option ValueType)
    (elems : List Value) : Option (List Check × List String) :=
  match fuel with
  | 0 => none
  | f + 1 =>
    match elems with
    | [] => some ([], memo)
    | d :: ds =>
      match collectValue f cache opt sel memo ss oty none d with
      | none => none
      | some (L1, m1) =>
        match collectElems f cache opt sel m1 ss oty ds with
        | none => none
        | some (L2, m2) => some (L1 ++ L2, m2)
end

/-- Agreement of the accumulated expiry and invalidation between two
contexts, through a list of checks: the output expiry is the
`checkExpiresAt` fold of the checks over the input expiry, and the
output invalidation is the OR of the input with the checks. -/
def checksAgree (ctx ctx2 : ReadCtx) (L : List Check) : Prop :=
  ctx2.expiresAt = L.foldl (fun a c => stepExpiresAt a c.exp) ctx.expiresAt ∧
  ctx2.invalidated = (ctx.invalidated || L.any (fun c => c.inv))

theorem checksAgree_nil (ctx : ReadCtx) : checksAgree ctx ctx [] :=
  ⟨rfl, by simp⟩

theorem checksAgree_append {a b c : ReadCtx} {L1 L2 : List Check}
    (h1 : checksAgree a b L1) (h2 : checksAgree b c L2) :
    checksAgree a c (L1 ++ L2) := by
  obtain ⟨e1, i1⟩ := h1
  obtain ⟨e2, i2⟩ := h2
  constructor
  · rw [List.foldl_append, ← e1, e2]
  · rw [i2, i1, List.any_append, Bool.or_assoc]

theorem checksAgree_of_projections {a b b2 : ReadCtx} {L : List Check}
    (h : checksAgree a b L) (he : b2.expiresAt = b.expiresAt)
    (hi : b2.invalidated = b.invalidated) : checksAgree a b2 L :=
  ⟨he.trans h.1, hi.trans h.2⟩

theorem checksAgree_check (ctx : ReadCtx) (lvl : Bool) (e : Int) (b : Bool) :
    checksAgree ctx (checkInvalidated (checkExpiresAt ctx e) b)
      [⟨lvl, e, b⟩] := by
  rw [checkExpiresAt_eq, checkInvalidated_eq]
  exact ⟨rfl, by simp⟩

theorem checksAgree_validation (ty : Option ValueType) (data : Value)
    (ctx : ReadCtx) : checksAgree ctx (applyValidation ty data ctx).2 [] := by
  cases ty with
  | none => exact checksAgree_nil ctx
  | some t =>
    by_cases hv : isValid t data = true
    · simp only [applyValidation, if_pos hv]
      exact checksAgree_nil ctx
    · simp only [applyValidation, if_neg hv]
      exact ⟨rfl, by simp [addInvalidField]⟩

theorem checksAgree_memoCtx (ctx : ReadCtx) (ent : Option Entity)
    (ss : Option SelectionSetNode) : checksAgree ctx (memoCtx ctx ent ss) [] := by
  cases ent with
  | none => exact checksAgree_nil ctx
  | some e =>
    by_cases hss : ss.isNone = true <;>
      refine ⟨?_, ?_⟩ <;> simp [memoCtx, hss]

/-! ### Unfolding and normalization lemmas used by the agreement proof -/

theorem memoCtx_eq (ctx : ReadCtx) (ent : Option Entity)
    (ss : Option SelectionSetNode) :
    memoCtx ctx ent ss =
      { ctx with
          fullEntityResults := memoListStep ctx.fullEntityResults ent ss } := by
  cases ent with
  | none => rfl
  | some e =>
    by_cases hss : ss.isNone = true <;> simp [memoCtx, memoListStep, hss]

theorem applyValidation_snd (ty : Option ValueType) (data : Value)
    (ctx : ReadCtx) :
    (applyValidation ty data ctx).2 =
      { ctx with
          invalidFields := (applyValidation ty data ctx).2.invalidFields } := by
  cases ty with
  | none => rfl
  | some t =>
    by_cases hv : isValid t data = true <;>
      simp [applyValidation, hv, addInvalidField]

theorem traverseValue_not_ref (f : Nat) (ctx : ReadCtx)
    (ss : Option SelectionSetNode) (ty : Option ValueType)
    (ent : Option Entity) (data : Value) (h : isReference data = false) :
    traverseValue (f + 1) ctx ss ty ent data =
      traverseValueRest f (applyValidation ty data ctx).2 ss
        (applyValidation ty data ctx).1 ent data := by
  cases data <;> first
    | rfl
    | exact absurd h (by simp [isReference])

theorem traverseValueRest_other (f : Nat) (ctx : ReadCtx)
    (ss : Option SelectionSetNode) (ty : Option ValueType)
    (ent : Option Entity) (data : Value) (h1 : isObjectWithMeta data = false)
    (h2 : ∀ l, data ≠ .arr l) :
    traverseValueRest (f + 1) ctx ss ty ent data = some (data, ctx) := by
  cases data <;> first
    | rfl
    | exact absurd rfl (h2 _)
    | exact absurd h1 (by simp [isObjectWithMeta])

theorem collectEntity_succ (f : Nat) (cache : Cache) (opt : Bool)
    (sel : Option SelectionSetNode) (memo : List String) (entityID : String)
    (ty : Option ValueType) (ss : Option SelectionSetNode) :
    collectEntity (f + 1) cache opt sel memo entityID ty ss =
      match cacheGet cache entityID opt with
      | none => some ([], memo)
      | some entity =>
        if ss.isNone && memo.contains entity.id then some ([], memo)
        else
          match collectValue f cache opt sel memo ss ty (some entity)
              entity.value with
          | none => none
          | some (L, memo2) =>
            some (⟨true, entity.expiresAt, entity.invalidated⟩ :: L, memo2) :=
  rfl

theorem collectValue_ref (f : Nat) (cache : Cache) (opt : Bool)
    (sel : Option SelectionSetNode) (memo : List String)
    (ss : Option SelectionSetNode) (ty : Option ValueType)
    (ent : Option Entity) (key : String) :
    collectValue (f + 1) cache opt sel memo ss ty ent (.ref key) =
      collectEntity f cache opt sel memo key ty ss := rfl

theorem collectValue_not_ref (f : Nat) (cache : Cache) (opt : Bool)
    (sel : Option SelectionSetNode) (memo : List String)
    (ss : Option SelectionSetNode) (ty : Option ValueType)
    (ent : Option Entity) (data : Value) (h : isReference data = false) :
    collectValue (f + 1) cache opt sel memo ss ty ent data =
      collectValueRest f cache opt sel memo ss (validatedType ty data) ent
        data := by
  cases data <;> first
    | rfl
    | exact absurd h (by simp [isReference])

theorem collectValueRest_objC (f : Nat) (cache : Cache) (opt : Bool)
    (sel : Option SelectionSetNode) (memo : List String)
    (ss : Option SelectionSetNode) (ty : Option ValueType)
    (ent : Option Entity) (dataFields : List (String × Value))
    (expMap : List (String × Int)) (invMap : List (String × Bool)) :
    collectValueRest (f + 1) cache opt sel memo ss ty ent
        (.obj dataFields expMap invMap) =
      collectFields f cache opt sel (memoListStep memo ent ss) ty
        (.obj dataFields expMap invMap) dataFields expMap invMap
        (getSelectionFields sel ss ty dataFields) := rfl

theorem collectValueRest_arrC (f : Nat) (cache : Cache) (opt : Bool)
    (sel : Option SelectionSetNode) (memo : List String)
    (ss : Option SelectionSetNode) (ty : Option ValueType)
    (ent : Option Entity) (elems : List Value) :
    collectValueRest (f + 1) cache opt sel memo ss ty ent (.arr elems) =
      collectElems f cache opt sel memo ss (arrayElemType ty) elems := rfl

theorem collectValueRest_other (f : Nat) (cache : Cache) (opt : Bool)
    (sel : Option SelectionSetNode) (memo : List String)
    (ss : Option SelectionSetNode) (ty : Option ValueType)
    (ent : Option Entity) (data : Value) (h1 : isObjectWithMeta data = false)
    (h2 : ∀ l, data ≠ .arr l) :
    collectValueRest (f + 1) cache opt sel memo ss ty ent data =
      some ([], memo) := by
  cases data <;> first
    | rfl
    | exact absurd rfl (h2 _)
    | exact absurd h1 (by simp [isObjectWithMeta])

theorem collectFields_cons (f : Nat) (cache : Cache) (opt : Bool)
    (sel : Option SelectionSetNode) (memo : List String)
    (ty : Option ValueType) (data : Value)
    (dataFields : List (String × Value)) (expMap : List (String × Int))
    (invMap : List (String × Bool))
    (sf : String × Option String × Option SelectionSetNode)
    (rest : List (String × Option String × Option SelectionSetNode)) :
    collectFields (f + 1) cache opt sel memo ty data dataFields expMap invMap
        (sf :: rest) =
      match collectField f cache opt sel memo ty data dataFields expMap
          invMap sf with
      | none => none
      | some (L1, m1) =>
        match collectFields f cache opt sel m1 ty data dataFields expMap
            invMap rest with
        | none => none
        | some (L2, m2) => some (L1 ++ L2, m2) := rfl

theorem collectField_succ (f : Nat) (cache : Cache) (opt : Bool)
    (sel : Option SelectionSetNode) (memo : List String)
    (ty : Option ValueType) (data : Value)
    (dataFields : List (String × Value)) (expMap : List (String × Int))
    (invMap : List (String × Bool))
    (sf : String × Option String × Option SelectionSetNode) :
    collectField (f + 1) cache opt sel memo ty data dataFields expMap invMap
        sf =
      match resolveFieldValue cache (maybeGetfieldType ty sf.1) dataFields
          data sf.1 with
      | some fieldValue =>
        match collectValue f cache opt sel memo sf.2.2
            ((maybeGetfieldType ty sf.1).bind FieldConfig.type) none
            fieldValue with
        | none => none
        | some (L, m2) =>
          some (⟨false, metaExpiresAt expMap sf.1,
            metaInvalidated invMap sf.1⟩ :: L, m2)
      | none => some ([], memo) := rfl

theorem collectElems_cons (f : Nat) (cache : Cache) (opt : Bool)
    (sel : Option SelectionSetNode) (memo : List String)
    (ss : Option SelectionSetNode) (oty : Option ValueType) (d : Value)
    (ds : List Value) :
    collectElems (f + 1) cache opt sel memo ss oty (d :: ds) =
      match collectValue f cache opt sel memo ss oty none d with
      | none => none
      | some (L1, m1) =>
        match collectElems f cache opt sel m1 ss oty ds with
        | none => none
        | some (L2, m2) => some (L1 ++ L2, m2) := rfl

theorem checksAgree_pushPath (ctx : ReadCtx) (s : PathSeg) :
    checksAgree ctx (pushPath ctx s) [] :=
  ⟨rfl, by simp [pushPath]⟩

theorem checksAgree_popPath (ctx : ReadCtx) :
    checksAgree ctx (popPath ctx) [] :=
  ⟨rfl, by simp [popPath]⟩

theorem checksAgree_addMissingField (ctx : ReadCtx) :
    checksAgree ctx (addMissingField ctx) [] :=
  ⟨rfl, by simp [addMissingField]⟩

/-- Agreement between the traversal and the collector: a successful run
of any traversal function yields exactly the expiry fold and invalidation
OR of the checks the collector gathers along the same walk, and the
collector's memoization table tracks the traversal's. -/
theorem readChecks (fuel : Nat) :
    (∀ (ctx : ReadCtx) (entityID : String) (ty : Option ValueType)
      (ss : Option SelectionSetNode) (v : Value) (ctx2 : ReadCtx),
      traverseEntity fuel ctx entityID ty ss = some (v, ctx2) →
      ∃ L, collectEntity fuel ctx.cache ctx.optimistic ctx.selector
          ctx.fullEntityResults entityID ty ss =
          some (L, ctx2.fullEntityResults) ∧ checksAgree ctx ctx2 L)
    ∧ (∀ (ctx : ReadCtx) (ss : Option SelectionSetNode)
      (ty : Option ValueType) (ent : Option Entity) (data : Value) (v : Value)
      (ctx2 : ReadCtx),
      traverseValue fuel ctx ss ty ent data = some (v, ctx2) →
      ∃ L, collectValue fuel ctx.cache ctx.optimistic ctx.selector
          ctx.fullEntityResults ss ty ent data =
          some (L, ctx2.fullEntityResults) ∧ checksAgree ctx ctx2 L)
    ∧ (∀ (ctx : ReadCtx) (ss : Option SelectionSetNode)
      (ty : Option ValueType) (ent : Option Entity) (data : Value) (v : Value)
      (ctx2 : ReadCtx),
      traverseValueRest fuel ctx ss ty ent data = some (v, ctx2) →
      ∃ L, collectValueRest fuel ctx.cache ctx.optimistic ctx.selector
          ctx.fullEntityResults ss ty ent data =
          some (L, ctx2.fullEntityResults) ∧ checksAgree ctx ctx2 L)
    ∧ (∀ (ctx : ReadCtx) (ty : Option ValueType) (data : Value)
      (dataFields : List (String × Value)) (expMap : List (String × Int))
      (invMap : List (String × Bool))
      (sels : List (String × Option String × Option SelectionSetNode))
      (acc res : List (String × Value)) (ctx2 : ReadCtx),
      traverseFields fuel ctx ty data dataFields expMap invMap sels acc =
        some (res, ctx2) →
      ∃ L, collectFields fuel ctx.cache ctx.optimistic ctx.selector
          ctx.fullEntityResults ty data dataFields expMap invMap sels =
          some (L, ctx2.fullEntityResults) ∧ checksAgree ctx ctx2 L)
    ∧ (∀ (ctx : ReadCtx) (ty : Option ValueType) (data : Value)
      (dataFields : List (String × Value)) (expMap : List (String × Int))
      (invMap : List (String × Bool))
      (sf : String × Option String × Option SelectionSetNode)
      (acc res : List (String × Value)) (ctx2 : ReadCtx),
      traverseField fuel ctx ty data dataFields expMap invMap sf acc =
        some (res, ctx2) →
      ∃ L, collectField fuel ctx.cache ctx.optimistic ctx.selector
          ctx.fullEntityResults ty data dataFields expMap invMap sf =
          some (L, ctx2.fullEntityResults) ∧ checksAgree ctx ctx2 L)
    ∧ (∀ (ctx : ReadCtx) (ss : Option SelectionSetNode)
      (oty : Option ValueType) (elems : List Value) (i : Nat)
      (vs : List Value) (ctx2 : ReadCtx),
      traverseElems fuel ctx ss oty elems i = some (vs, ctx2) →
      ∃ L, collectElems fuel ctx.cache ctx.optimistic ctx.selector
          ctx.fullEntityResults ss oty elems =
          some (L, ctx2.fullEntityResults) ∧ checksAgree ctx ctx2 L) := by
  induction fuel with
  | zero =>
    refine ⟨?_, ?_, ?_, ?_, ?_, ?_⟩ <;>
      · intros
        rename_i h
        simp [traverseEntity, traverseValue, traverseValueRest,
          traverseFields, traverseField, traverseElems] at h
  | succ f ih =>
    obtain ⟨ihE, ihV, ihR, ihFs, ihF, ihEl⟩ := ih
    refine ⟨?_, ?_, ?_, ?_, ?_, ?_⟩
    · -- traverseEntity
      intro ctx entityID ty ss v ctx2 h
      rw [traverseEntity_succ] at h
      rw [collectEntity_succ]
      cases hget : cacheGet ctx.cache entityID ctx.optimistic with
      | none =>
        simp only [hget] at h ⊢
        cases h
        exact ⟨[], rfl, checksAgree_addMissingField ctx⟩
      | some entity =>
        simp only [hget] at h ⊢
        by_cases hc :
            (ss.isNone && ctx.fullEntityResults.contains entity.id) = true
        · rw [if_pos hc] at h ⊢
          cases h
          exact ⟨[], rfl, checksAgree_nil ctx⟩
        · rw [if_neg hc] at h ⊢
          obtain ⟨L, hc1, hc2⟩ := ihV _ _ _ _ _ _ _ h
          rw [checkExpiresAt_eq, checkInvalidated_eq] at hc1
          refine ⟨⟨true, entity.expiresAt, entity.invalidated⟩ :: L, ?_, ?_⟩
          · simp only [hc1]
          · exact checksAgree_append (checksAgree_check ctx true
              entity.expiresAt entity.invalidated) hc2
    · -- traverseValue
      intro ctx ss ty ent data v ctx2 h
      by_cases href : isReference data = true
      · obtain ⟨key, rfl⟩ : ∃ k, data = .ref k := by
          cases data <;> simp [isReference] at href ⊢
        rw [show traverseValue (f + 1) ctx ss ty ent (.ref key) =
          traverseEntity f ctx key ty ss from rfl] at h
        rw [collectValue_ref]
        exact ihE _ _ _ _ _ _ h
      · rw [Bool.not_eq_true] at href
        rw [traverseValue_not_ref f ctx ss ty ent data href] at h
        rw [collectValue_not_ref f ctx.cache ctx.optimistic ctx.selector
          ctx.fullEntityResults ss ty ent data href]
        obtain ⟨L, hc1, hc2⟩ := ihR _ _ _ _ _ _ _ h
        rw [applyValidation_snd ty data ctx] at hc1
        rw [applyValidation_fst ty data ctx] at hc1
        refine ⟨L, hc1, ?_⟩
        simpa using checksAgree_append (checksAgree_validation ty data ctx) hc2
    · -- traverseValueRest
      intro ctx ss ty ent data v ctx2 h
      cases data with
      | obj dataFields expMap invMap =>
        rw [traverseValueRest_obj] at h
        rw [collectValueRest_objC]
        cases hfs : traverseFields f (memoCtx ctx ent ss) ty
            (.obj dataFields expMap invMap) dataFields expMap invMap
            (getSelectionFields ctx.selector ss ty dataFields) [] with
        | none => rw [hfs] at h; exact absurd h (by simp)
        | some p =>
          obtain ⟨res0, c2⟩ := p
          rw [hfs] at h
          cases h
          obtain ⟨L, hc1, hc2⟩ := ihFs _ _ _ _ _ _ _ _ _ _ hfs
          rw [memoCtx_eq] at hc1
          refine ⟨L, hc1, ?_⟩
          simpa using checksAgree_append (checksAgree_memoCtx ctx ent ss) hc2
      | arr elems =>
        rw [traverseValueRest_arr] at h
        rw [collectValueRest_arrC]
        cases hel : traverseElems f ctx ss (arrayElemType ty) elems 0 with
        | none => rw [hel] at h; exact absurd h (by simp)
        | some p =>
          obtain ⟨vs0, c2⟩ := p
          rw [hel] at h
          cases h
          exact ihEl _ _ _ _ _ _ _ hel
      | undef =>
        rw [traverseValueRest_other f ctx ss ty ent .undef rfl
          (fun l hl => Value.noConfusion hl)] at h
        cases h
        exact ⟨[], rfl, checksAgree_nil ctx⟩
      | null =>
        rw [traverseValueRest_other f ctx ss ty ent .null rfl
          (fun l hl => Value.noConfusion hl)] at h
        cases h
        exact ⟨[], rfl, checksAgree_nil ctx⟩
      | bool b =>
        rw [traverseValueRest_other f ctx ss ty ent (.bool b) rfl
          (fun l hl => Value.noConfusion hl)] at h
        cases h
        exact ⟨[], rfl, checksAgree_nil ctx⟩
      | num n =>
        rw [traverseValueRest_other f ctx ss ty ent (.num n) rfl
          (fun l hl => Value.noConfusion hl)] at h
        cases h
        exact ⟨[], rfl, checksAgree_nil ctx⟩
      | str s =>
        rw [traverseValueRest_other f ctx ss ty ent (.str s) rfl
          (fun l hl => Value.noConfusion hl)] at h
        cases h
        exact ⟨[], rfl, checksAgree_nil ctx⟩
      | ref key =>
        rw [traverseValueRest_other f ctx ss ty ent (.ref key) rfl
          (fun l hl => Value.noConfusion hl)] at h
        cases h
        exact ⟨[], rfl, checksAgree_nil ctx⟩
      | plainObj flds =>
        rw [traverseValueRest_other f ctx ss ty ent (.plainObj flds) rfl
          (fun l hl => Value.noConfusion hl)] at h
        cases h
        exact ⟨[], rfl, checksAgree_nil ctx⟩
      | cyc k =>
        rw [traverseValueRest_other f ctx ss ty ent (.cyc k) rfl
          (fun l hl => Value.noConfusion hl)] at h
        cases h
        exact ⟨[], rfl, checksAgree_nil ctx⟩
    · -- traverseFields
      intro ctx ty data dataFields expMap invMap sels acc res ctx2 h
      cases sels with
      | nil =>
        rw [show traverseFields (f + 1) ctx ty data dataFields expMap invMap
          [] acc = some (acc, ctx) from rfl] at h
        cases h
        exact ⟨[], rfl, checksAgree_nil ctx⟩
      | cons sf rest =>
        rw [traverseFields_cons] at h
        rw [collectFields_cons]
        cases hf : traverseField f ctx ty data dataFields expMap invMap sf
            acc with
        | none => rw [hf] at h; exact absurd h (by simp)
        | some p =>
          obtain ⟨acc2, ctxF⟩ := p
          simp only [hf] at h
          obtain ⟨L1, hcf1, hcf2⟩ := ihF _ _ _ _ _ _ _ _ _ _ hf
          obtain ⟨L2, hcs1, hcs2⟩ := ihFs _ _ _ _ _ _ _ _ _ _ h
          obtain ⟨he1, he2, he3, _⟩ := (readFrame f).2.2.2.2.1 _ _ _ _ _ _ _ _
            _ _ hf
          rw [he1, he2, he3] at hcs1
          simp only [hcf1]
          simp only [hcs1]
          exact ⟨L1 ++ L2, rfl, checksAgree_append hcf2 hcs2⟩
    · -- traverseField
      intro ctx ty data dataFields expMap invMap sf acc res ctx2 h
      rw [traverseField_succ] at h
      rw [collectField_succ]
      cases hrv : resolveFieldValue ctx.cache
          (maybeGetfieldType ty sf.1) dataFields data sf.1 with
      | none =>
        simp only [hrv] at h ⊢
        cases h
        exact ⟨[], rfl, rfl,
          by simp [popPath, addMissingField, pushPath]⟩
      | some fieldValue =>
        simp only [hrv] at h ⊢
        cases htv : traverseValue f
            (checkInvalidated
              (checkExpiresAt (pushPath ctx (.fld sf.1))
                (metaExpiresAt expMap sf.1))
              (metaInvalidated invMap sf.1))
            sf.2.2 ((maybeGetfieldType ty sf.1).bind FieldConfig.type) none
            fieldValue with
        | none => rw [htv] at h; exact absurd h (by simp)
        | some p =>
          obtain ⟨v, ctx4⟩ := p
          simp only [htv] at h
          cases h
          obtain ⟨L, hc1, hc2⟩ := ihV _ _ _ _ _ _ _ htv
          rw [checkExpiresAt_eq, checkInvalidated_eq] at hc1
          simp only [pushPath] at hc1
          refine ⟨⟨false, metaExpiresAt expMap sf.1,
            metaInvalidated invMap sf.1⟩ :: L, ?_, ?_⟩
          · simp only [hc1]
            rfl
          · have hAll := checksAgree_append
              (checksAgree_pushPath ctx (.fld sf.1))
              (checksAgree_append
                (checksAgree_check (pushPath ctx (.fld sf.1)) false
                  (metaExpiresAt expMap sf.1) (metaInvalidated invMap sf.1))
                hc2)
            have hAll2 : checksAgree ctx ctx4
                (⟨false, metaExpiresAt expMap sf.1,
                  metaInvalidated invMap sf.1⟩ :: L) := by
              simpa using hAll
            exact @checksAgree_of_projections ctx ctx4 (popPath ctx4) _ hAll2
              rfl rfl
    · -- traverseElems
      intro ctx ss oty elems i vs ctx2 h
      cases elems with
      | nil =>
        rw [show traverseElems (f + 1) ctx ss oty [] i = some ([], ctx)
          from rfl] at h
        cases h
        exact ⟨[], rfl, checksAgree_nil ctx⟩
      | cons d ds =>
        rw [traverseElems_cons] at h
        rw [collectElems_cons]
        cases htv : traverseValue f (pushPath ctx (.idx i)) ss oty none d with
        | none => rw [htv] at h; exact absurd h (by simp)
        | some p =>
          obtain ⟨v, c1⟩ := p
          simp only [htv] at h
          cases hel : traverseElems f (popPath c1) ss oty ds (i + 1) with
          | none => rw [hel] at h; exact absurd h (by simp)
          | some q =>
            obtain ⟨ws, c2⟩ := q
            simp only [hel] at h
            cases h
            obtain ⟨L1, hc1, hc2⟩ := ihV _ _ _ _ _ _ _ htv
            obtain ⟨L2, he1, he2⟩ := ihEl _ _ _ _ _ _ _ hel
            simp only [pushPath] at hc1
            obtain ⟨hf1, hf2, hf3, _⟩ := (readFrame f).2.1 _ _ _ _ _ _ _ htv
            simp only [pushPath] at hf1 hf2 hf3
            simp only [popPath, hf1, hf2, hf3] at he1
            refine ⟨L1 ++ L2, ?_, ?_⟩
            · simp only [hc1, he1]
            have h1 := checksAgree_append (checksAgree_pushPath ctx (.idx i))
              hc2
            have h2 := checksAgree_append (checksAgree_popPath c1) he2
            simpa using checksAgree_append h1 h2
/-! ### Claim C3 -/

/-- Modelled from the spec: the minimum of the timestamps different from
"no expiry" (`-1`), or `-1` when there are none — stated over the
filtered list with a plain `min` fold. -/
def minExpiry (xs : List Int) : Int :=
  match xs.filter (fun x => x != -1) with
  | [] => -1
  | y :: ys => ys.foldl min y

theorem stepExpiresAt_eq_min {a x : Int} (ha : a ≠ -1) (hx : x ≠ -1) :
    stepExpiresAt a x = min a x := by
  simp only [stepExpiresAt, min_def]
  split_ifs <;> omega

theorem minExpiry_step (a x : Int) (xs : List Int) :
    minExpiry (stepExpiresAt a x :: xs) = minExpiry (a :: x :: xs) := by
  by_cases hx : x = -1
  · subst hx
    rw [show stepExpiresAt a (-1) = a from by simp [stepExpiresAt]]
    simp [minExpiry, List.filter_cons]
  · by_cases ha : a = -1
    · subst ha
      rw [show stepExpiresAt (-1) x = x from by simp [stepExpiresAt, hx]]
      simp [minExpiry, List.filter_cons]
    · rw [stepExpiresAt_eq_min ha hx]
      have hm : min a x ≠ -1 := by
        rcases min_choice a x with h | h <;> rw [h] <;> assumption
      simp [minExpiry, List.filter_cons, hm, ha, hx]

/-- The `checkExpiresAt` fold computes exactly the spec's minimum. -/
theorem foldl_stepExpiresAt (xs : List Int) :
    ∀ a, xs.foldl stepExpiresAt a = minExpiry (a :: xs) := by
  induction xs with
  | nil =>
    intro a
    by_cases h : a = -1 <;> simp [minExpiry, List.filter_cons, h]
  | cons x xs ih =>
    intro a
    rw [List.foldl_cons, ih (stepExpiresAt a x), minExpiry_step]

theorem foldl_stepExpiresAt_neg (xs : List Int) :
    xs.foldl stepExpiresAt (-1) = minExpiry xs := by
  rw [foldl_stepExpiresAt]
  simp [minExpiry, List.filter_cons]

/-- C3 (amended): for every read whose root entity is found, the
result's `expiresAt` is the minimum of the non-(-1) timestamps over all
metadata checks the traversal performs — the entity-level `expiresAt` of
every entity visited, root included, and the per-field `expiresAt` of
every field actually visited — or `-1` when all are "no expiry"; and the
result's `invalidated` flag is the OR of the corresponding invalidated
flags.  The original claim omits the entity-level checks of the nested
entities (source lines 122-123), which the counterexample below shows to
contribute. -/
theorem C3_expiry_invalidation_rollup (fuel : Nat) (cache : Cache)
    (ty : ValueType) (opt : Bool) (opts : ReadOptions) (now : Int)
    (res : ReadResult) (ent : Entity)
    (hroot : resolveEntity cache ty opts.id opt = some ent)
    (h : executeRead fuel cache ty opt opts now = some res) :
    ∃ L memo2,
      collectEntity fuel cache opt opts.select [] ent.id (some ty)
        (getSelectionSet opts.select ty) = some (L, memo2) ∧
      res.expiresAt = minExpiry (L.map (fun c => c.exp)) ∧
      res.invalidated = L.any (fun c => c.inv) := by
  unfold executeRead at h
  rw [hroot] at h
  simp only [getSelectionSet] at h
  split at h
  · exact absurd h (by simp)
  · next v ctx2 htr =>
    cases h
    obtain ⟨L, hc1, hc2⟩ := (readChecks fuel).1 _ _ _ _ _ _ htr
    refine ⟨L, ctx2.fullEntityResults, hc1, ?_, ?_⟩
    · have hmap : L.foldl (fun a c => stepExpiresAt a c.exp) (-1) =
          (L.map (fun c => c.exp)).foldl stepExpiresAt (-1) :=
        (List.foldl_map _ _ _ _).symm
      rw [show ctx2.expiresAt =
        L.foldl (fun a c => stepExpiresAt a c.exp) (-1) from hc2.1]
      rw [hmap, foldl_stepExpiresAt_neg]
    · rw [show ctx2.invalidated = (false || L.any (fun c => c.inv))
        from hc2.2]
      simp

/-! Counterexample material for C3 as stated: a nested entity whose own
entity-level `expiresAt` is `5` while the root entity and every visited
field carry "no expiry". -/

/-- Root entity `A` referencing `B`; no field expiry. -/
def c3EntA : Entity :=
  ⟨"A", .obj [("b", .ref "B")] [("b", -1)] [("b", false)], -1, false⟩

/-- Nested entity `B` with entity-level expiry `5` and no field expiry. -/
def c3EntB : Entity :=
  ⟨"B", .obj [("x", .num 1)] [("x", -1)] [("x", false)], 5, false⟩

/-- Cache for the C3 counterexample. -/
def c3Cache : Cache := ⟨["A"], [("A", c3EntA), ("B", c3EntB)], []⟩

/-- Counterexample to C3 as stated: the read returns `expiresAt = 5`,
but the minimum over the root entity's `expiresAt` (`-1`, the head
check) and the expiry of every field actually visited (the checks that
are not entity-level) is `-1` — the value `5` comes from the nested
entity `B`'s entity-level check, which the claim's formula omits. -/
theorem C3_counterexample :
    (executeRead 20 c3Cache (.object (some "A") []) false ⟨none, none⟩ 0).map
        (fun r => r.expiresAt) = some 5
    ∧ (collectEntity 20 c3Cache false none [] "A"
        (some (.object (some "A") [])) none).map
        (fun p => minExpiry
          (((p.1.headD ⟨true, -1, false⟩).exp ::
            (p.1.filter (fun c => !c.entityLevel)).map (fun c => c.exp)))) =
        some (-1)
    ∧ (5 : Int) ≠ -1 := by
  refine ⟨rfl, rfl, by decide⟩

/-- Witness for C3 (amended) on the concrete cyclic cache: the collector
checks reproduce the result's expiry and invalidation. -/
theorem C3_rollup_witness :
    (collectEntity 20 fixCache false none [] "A" (some fixTyA) none).map
        (fun p => minExpiry (p.1.map (fun c => c.exp))) =
      some ((executeRead 20 fixCache fixTyA false ⟨none, none⟩ 3).getD
        (emptyReadResult none)).expiresAt ∧
    (collectEntity 20 fixCache false none [] "A" (some fixTyA) none).map
        (fun p => p.1.any (fun c => c.inv)) =
      some ((executeRead 20 fixCache fixTyA false ⟨none, none⟩ 3).getD
        (emptyReadResult none)).invalidated := by
  obtain ⟨L, memo2, hc, he, hi⟩ :=
    C3_expiry_invalidation_rollup 20 fixCache fixTyA false ⟨none, none⟩ 3 _ _
      (by rfl) (by rfl)
  rw [show collectEntity 20 fixCache false none [] "A" (some fixTyA) none =
    some (L, memo2) from hc]
  constructor
  · exact congrArg some he.symm
  · exact congrArg some hi.symm

/-! ### Claim C1: counterexample material.

A store in which two entities hold each other's Reference inside an
array value.  Such values are squarely within the documented data model
(an entity value is "a nested structure of plain values, nested
non-entity objects, arrays, and Reference markers"), yet the read
traversal never reaches the object-with-metadata branch that performs
memoization (source lines 147-152), so the reference cycle is followed
forever. -/

/-- Entity `A` whose value is an array holding a Reference to `B`. -/
def cycEntA : Entity := ⟨"A", .arr [.ref "B"], -1, false⟩

/-- Entity `B` whose value is an array holding a Reference back to
`A`. -/
def cycEntB : Entity := ⟨"B", .arr [.ref "A"], -1, false⟩

/-- The cyclic store of the counterexample. -/
def cycCache : Cache := ⟨["A"], [("A", cycEntA), ("B", cycEntB)], []⟩

/-- Root type of the counterexample: a named array type. -/
def cycTy : ValueType := .array (some "A") none

/-- Unrolling step: with the cyclic store, five layers of fuel turn the
traversal of `A` into the traversal of `B`, and a failing inner
traversal fails the outer one. -/
theorem cyc_stepA (n : Nat) (ctx : ReadCtx) (ty : Option ValueType)
    (hc : ctx.cache = cycCache) (ho : ctx.optimistic = false)
    (hA : ctx.fullEntityResults.contains "A" = false)
    (hty : ty = some cycTy ∨ ty = none)
    (hinner : traverseEntity n (pushPath ctx (.idx 0)) "B" none none = none) :
    traverseEntity (n + 5) ctx "A" ty none = none := by
  rw [traverseEntity_succ, hc, ho]
  simp only [show cacheGet cycCache "A" false = some cycEntA from rfl]
  rw [if_neg (by
    simp only [show cycEntA.id = "A" from rfl, Option.isNone_none,
      Bool.true_and]
    simpa using hA)]
  rw [show checkInvalidated (checkExpiresAt ctx cycEntA.expiresAt)
    cycEntA.invalidated = ctx from rfl]
  rcases hty with rfl | rfl
  · rw [show traverseValue (n + 4) ctx none (some cycTy) (some cycEntA)
      cycEntA.value =
      (match traverseElems (n + 2) ctx none none [Value.ref "B"] 0 with
       | none => none
       | some (vs, c) => some (.arr vs, c)) from rfl]
    rw [show traverseElems (n + 2) ctx none none [Value.ref "B"] 0 =
      (match traverseEntity n (pushPath ctx (.idx 0)) "B" none none with
       | none => none
       | some (v, c1) =>
         match traverseElems (n + 1) (popPath c1) none none [] 1 with
         | none => none
         | some (vs, c2) => some (v :: vs, c2)) from rfl]
    rw [hinner]
  · rw [show traverseValue (n + 4) ctx none none (some cycEntA)
      cycEntA.value =
      (match traverseElems (n + 2) ctx none none [Value.ref "B"] 0 with
       | none => none
       | some (vs, c) => some (.arr vs, c)) from rfl]
    rw [show traverseElems (n + 2) ctx none none [Value.ref "B"] 0 =
      (match traverseEntity n (pushPath ctx (.idx 0)) "B" none none with
       | none => none
       | some (v, c1) =>
         match traverseElems (n + 1) (popPath c1) none none [] 1 with
         | none => none
         | some (vs, c2) => some (v :: vs, c2)) from rfl]
    rw [hinner]

/-- Unrolling step for `B`, symmetric to `cyc_stepA`. -/
theorem cyc_stepB (n : Nat) (ctx : ReadCtx) (ty : Option ValueType)
    (hc : ctx.cache = cycCache) (ho : ctx.optimistic = false)
    (hB : ctx.fullEntityResults.contains "B" = false)
    (hty : ty = some cycTy ∨ ty = none)
    (hinner : traverseEntity n (pushPath ctx (.idx 0)) "A" none none = none) :
    traverseEntity (n + 5) ctx "B" ty none = none := by
  rw [traverseEntity_succ, hc, ho]
  simp only [show cacheGet cycCache "B" false = some cycEntB from rfl]
  rw [if_neg (by
    simp only [show cycEntB.id = "B" from rfl, Option.isNone_none,
      Bool.true_and]
    simpa using hB)]
  rw [show checkInvalidated (checkExpiresAt ctx cycEntB.expiresAt)
    cycEntB.invalidated = ctx from rfl]
  rcases hty with rfl | rfl
  · rw [show traverseValue (n + 4) ctx none (some cycTy) (some cycEntB)
      cycEntB.value =
      (match traverseElems (n + 2) ctx none none [Value.ref "A"] 0 with
       | none => none
       | some (vs, c) => some (.arr vs, c)) from rfl]
    rw [show traverseElems (n + 2) ctx none none [Value.ref "A"] 0 =
      (match traverseEntity n (pushPath ctx (.idx 0)) "A" none none with
       | none => none
       | some (v, c1) =>
         match traverseElems (n + 1) (popPath c1) none none [] 1 with
         | none => none
         | some (vs, c2) => some (v :: vs, c2)) from rfl]
    rw [hinner]
  · rw [show traverseValue (n + 4) ctx none none (some cycEntB)
      cycEntB.value =
      (match traverseElems (n + 2) ctx none none [Value.ref "A"] 0 with
       | none => none
       | some (vs, c) => some (.arr vs, c)) from rfl]
    rw [show traverseElems (n + 2) ctx none none [Value.ref "A"] 0 =
      (match traverseEntity n (pushPath ctx (.idx 0)) "A" none none with
       | none => none
       | some (v, c1) =>
         match traverseElems (n + 1) (popPath c1) none none [] 1 with
         | none => none
         | some (vs, c2) => some (v :: vs, c2)) from rfl]
    rw [hinner]

/-- On the cyclic array store, the traversal of `A` or `B` with no
selection set runs out of any amount of fuel: the recursion never
terminates. -/
theorem cyc_diverges (n : Nat) :
    ∀ (ctx : ReadCtx) (ty : Option ValueType), ctx.cache = cycCache →
      ctx.optimistic = false →
      ctx.fullEntityResults.contains "A" = false →
      ctx.fullEntityResults.contains "B" = false →
      (ty = some cycTy ∨ ty = none) →
      traverseEntity n ctx "A" ty none = none ∧
      traverseEntity n ctx "B" ty none = none := by
  induction n using Nat.strong_induction_on with
  | _ n ih =>
    intro ctx ty hc ho hA hB hty
    match n, ih with
    | 0, _ => exact ⟨rfl, rfl⟩
    | 1, _ =>
      constructor <;>
        · rw [traverseEntity_succ, hc, ho]
          simp only [show cacheGet cycCache "A" false = some cycEntA from rfl,
            show cacheGet cycCache "B" false = some cycEntB from rfl]
          rw [if_neg (by
            simp only [show cycEntA.id = "A" from rfl,
              show cycEntB.id = "B" from rfl, Option.isNone_none,
              Bool.true_and]
            first | simpa using hA | simpa using hB)]
          rfl
    | 2, _ =>
      constructor <;>
        · rw [traverseEntity_succ, hc, ho]
          simp only [show cacheGet cycCache "A" false = some cycEntA from rfl,
            show cacheGet cycCache "B" false = some cycEntB from rfl]
          rw [if_neg (by
            simp only [show cycEntA.id = "A" from rfl,
              show cycEntB.id = "B" from rfl, Option.isNone_none,
              Bool.true_and]
            first | simpa using hA | simpa using hB)]
          rfl
    | 3, _ =>
      constructor <;>
        · rw [traverseEntity_succ, hc, ho]
          simp only [show cacheGet cycCache "A" false = some cycEntA from rfl,
            show cacheGet cycCache "B" false = some cycEntB from rfl]
          rw [if_neg (by
            simp only [show cycEntA.id = "A" from rfl,
              show cycEntB.id = "B" from rfl, Option.isNone_none,
              Bool.true_and]
            first | simpa using hA | simpa using hB)]
          rcases hty with rfl | rfl <;> rfl
    | 4, _ =>
      constructor <;>
        · rw [traverseEntity_succ, hc, ho]
          simp only [show cacheGet cycCache "A" false = some cycEntA from rfl,
            show cacheGet cycCache "B" false = some cycEntB from rfl]
          rw [if_neg (by
            simp only [show cycEntA.id = "A" from rfl,
              show cycEntB.id = "B" from rfl, Option.isNone_none,
              Bool.true_and]
            first | simpa using hA | simpa using hB)]
          rcases hty with rfl | rfl <;> rfl
    | (m + 5), ih =>
      have hsub := ih m (by omega) (pushPath ctx (.idx 0)) none
        (by simp [pushPath, hc]) (by simp [pushPath, ho])
        (by simpa [pushPath] using hA)
        (by simpa [pushPath] using hB)
        (Or.inr rfl)
      exact ⟨cyc_stepA m ctx ty hc ho hA hty hsub.2,
        cyc_stepB m ctx ty hc ho hB hty hsub.1⟩

/-- Counterexample to C1 as stated: there is a store state — the cyclic
array store above, squarely within the documented data model — on which
a top-level read with no selector runs out of every amount of fuel, that
is, the source recursion does not terminate. -/
theorem C1_counterexample :
    ¬ ∃ n, (executeRead n cycCache cycTy false ⟨none, none⟩ 0).isSome = true := by
  rintro ⟨n, hn⟩
  unfold executeRead at hn
  rw [show resolveEntity cycCache cycTy (ReadOptions.mk none none).id false =
    some cycEntA from rfl] at hn
  have hdiv := (cyc_diverges n
    { cache := cycCache, expiresAt := -1, invalidFields := [],
      invalidated := false, missingFields := [], fullEntityResults := [],
      optimistic := false, path := [], selector := none }
    (some cycTy) rfl rfl rfl rfl (Or.inl rfl)).1
  simp only [getSelectionSet, show cycEntA.id = "A" from rfl, hdiv] at hn
  simp at hn

/-! ### Fuel monotonicity: a successful traversal stays successful, with
the same result, when given more fuel -/

theorem readMono (fuel : Nat) :
    (∀ (ctx : ReadCtx) (entityID : String) (ty : Option ValueType)
      (ss : Option SelectionSetNode) (r : Value × ReadCtx),
      traverseEntity fuel ctx entityID ty ss = some r →
      traverseEntity (fuel + 1) ctx entityID ty ss = some r)
    ∧ (∀ (ctx : ReadCtx) (ss : Option SelectionSetNode)
      (ty : Option ValueType) (ent : Option Entity) (data : Value)
      (r : Value × ReadCtx),
      traverseValue fuel ctx ss ty ent data = some r →
      traverseValue (fuel + 1) ctx ss ty ent data = some r)
    ∧ (∀ (ctx : ReadCtx) (ss : Option SelectionSetNode)
      (ty : Option ValueType) (ent : Option Entity) (data : Value)
      (r : Value × ReadCtx),
      traverseValueRest fuel ctx ss ty ent data = some r →
      traverseValueRest (fuel + 1) ctx ss ty ent data = some r)
    ∧ (∀ (ctx : ReadCtx) (ty : Option ValueType) (data : Value)
      (dataFields : List (String × Value)) (expMap : List (String × Int))
      (invMap : List (String × Bool))
      (sels : List (String × Option String × Option SelectionSetNode))
      (acc : List (String × Value)) (r : List (String × Value) × ReadCtx),
      traverseFields fuel ctx ty data dataFields expMap invMap sels acc =
        some r →
      traverseFields (fuel + 1) ctx ty data dataFields expMap invMap sels
        acc = some r)
    ∧ (∀ (ctx : ReadCtx) (ty : Option ValueType) (data : Value)
      (dataFields : List (String × Value)) (expMap : List (String × Int))
      (invMap : List (String × Bool))
      (sf : String × Option String × Option SelectionSetNode)
      (acc : List (String × Value)) (r : List (String × Value) × ReadCtx),
      traverseField fuel ctx ty data dataFields expMap invMap sf acc =
        some r →
      traverseField (fuel + 1) ctx ty data dataFields expMap invMap sf acc =
        some r)
    ∧ (∀ (ctx : ReadCtx) (ss : Option SelectionSetNode)
      (oty : Option ValueType) (elems : List Value) (i : Nat)
      (r : List Value × ReadCtx),
      traverseElems fuel ctx ss oty elems i = some r →
      traverseElems (fuel + 1) ctx ss oty elems i = some r) := by
  induction fuel with
  | zero =>
    refine ⟨?_, ?_, ?_, ?_, ?_, ?_⟩ <;>
      · intros
        rename_i h
        simp [traverseEntity, traverseValue, traverseValueRest,
          traverseFields, traverseField, traverseElems] at h
  | succ f ih =>
    obtain ⟨ihE, ihV, ihR, ihFs, ihF, ihEl⟩ := ih
    refine ⟨?_, ?_, ?_, ?_, ?_, ?_⟩
    · -- traverseEntity
      intro ctx entityID ty ss r h
      rw [traverseEntity_succ] at h
      rw [traverseEntity_succ]
      cases hget : cacheGet ctx.cache entityID ctx.optimistic with
      | none => simp only [hget] at h ⊢; exact h
      | some entity =>
        simp only [hget] at h ⊢
        by_cases hc :
            (ss.isNone && ctx.fullEntityResults.contains entity.id) = true
        · rw [if_pos hc] at h ⊢; exact h
        · rw [if_neg hc] at h ⊢
          exact ihV _ _ _ _ _ _ h
    · -- traverseValue
      intro ctx ss ty ent data r h
      by_cases href : isReference data = true
      · obtain ⟨key, rfl⟩ : ∃ k, data = .ref k := by
          cases data <;> simp [isReference] at href ⊢
        rw [show traverseValue (f + 1) ctx ss ty ent (.ref key) =
          traverseEntity f ctx key ty ss from rfl] at h
        rw [show traverseValue (f + 1 + 1) ctx ss ty ent (.ref key) =
          traverseEntity (f + 1) ctx key ty ss from rfl]
        exact ihE _ _ _ _ _ h
      · rw [Bool.not_eq_true] at href
        rw [traverseValue_not_ref f ctx ss ty ent data href] at h
        rw [traverseValue_not_ref (f + 1) ctx ss ty ent data href]
        exact ihR _ _ _ _ _ _ h
    · -- traverseValueRest
      intro ctx ss ty ent data r h
      cases data with
      | obj dataFields expMap invMap =>
        rw [traverseValueRest_obj] at h
        rw [traverseValueRest_obj]
        cases hfs : traverseFields f (memoCtx ctx ent ss) ty
            (.obj dataFields expMap invMap) dataFields expMap invMap
            (getSelectionFields ctx.selector ss ty dataFields) [] with
        | none => rw [hfs] at h; exact absurd h (by simp)
        | some p =>
          simp only [hfs] at h
          simp only [ihFs _ _ _ _ _ _ _ _ _ hfs]
          exact h
      | arr elems =>
        rw [traverseValueRest_arr] at h
        rw [traverseValueRest_arr]
        cases hel : traverseElems f ctx ss (arrayElemType ty) elems 0 with
        | none => rw [hel] at h; exact absurd h (by simp)
        | some p =>
          simp only [hel] at h
          simp only [ihEl _ _ _ _ _ _ hel]
          exact h
      | undef => exact h
      | null => exact h
      | bool b => exact h
      | num n => exact h
      | str s => exact h
      | ref key => exact h
      | plainObj flds => exact h
      | cyc k => exact h
    · -- traverseFields
      intro ctx ty data dataFields expMap invMap sels acc r h
      cases sels with
      | nil => exact h
      | cons sf rest =>
        rw [traverseFields_cons] at h
        rw [traverseFields_cons]
        cases hf : traverseField f ctx ty data dataFields expMap invMap sf
            acc with
        | none => rw [hf] at h; exact absurd h (by simp)
        | some p =>
          simp only [hf] at h
          simp only [ihF _ _ _ _ _ _ _ _ _ hf]
          exact ihFs _ _ _ _ _ _ _ _ _ h
    · -- traverseField
      intro ctx ty data dataFields expMap invMap sf acc r h
      rw [traverseField_succ] at h
      rw [traverseField_succ]
      cases hrv : resolveFieldValue ctx.cache (maybeGetfieldType ty sf.1)
          dataFields data sf.1 with
      | none => simp only [hrv] at h ⊢; exact h
      | some fieldValue =>
        simp only [hrv] at h ⊢
        cases htv : traverseValue f
            (checkInvalidated
              (checkExpiresAt (pushPath ctx (.fld sf.1))
                (metaExpiresAt expMap sf.1))
              (metaInvalidated invMap sf.1))
            sf.2.2 ((maybeGetfieldType ty sf.1).bind FieldConfig.type) none
            fieldValue with
        | none => rw [htv] at h; exact absurd h (by simp)
        | some p =>
          simp only [htv] at h
          simp only [ihV _ _ _ _ _ _ htv]
          exact h
    · -- traverseElems
      intro ctx ss oty elems i r h
      cases elems with
      | nil => exact h
      | cons d ds =>
        rw [traverseElems_cons] at h
        rw [traverseElems_cons]
        cases htv : traverseValue f (pushPath ctx (.idx i)) ss oty none d with
        | none => rw [htv] at h; exact absurd h (by simp)
        | some p =>
          simp only [htv] at h
          simp only [ihV _ _ _ _ _ _ htv]
          cases hel : traverseElems f (popPath p.2) ss oty ds (i + 1) with
          | none => rw [hel] at h; exact absurd h (by simp)
          | some q =>
            simp only [hel] at h
            simp only [ihEl _ _ _ _ _ _ hel]
            exact h

theorem traverseEntity_mono {n m : Nat} (hnm : n ≤ m) (ctx : ReadCtx)
    (entityID : String) (ty : Option ValueType)
    (ss : Option SelectionSetNode) (r : Value × ReadCtx)
    (h : traverseEntity n ctx entityID ty ss = some r) :
    traverseEntity m ctx entityID ty ss = some r := by
  induction m, hnm using Nat.le_induction with
  | base => exact h
  | succ m hm ih => exact (readMono m).1 _ _ _ _ _ ih

theorem traverseValue_mono {n m : Nat} (hnm : n ≤ m) (ctx : ReadCtx)
    (ss : Option SelectionSetNode) (ty : Option ValueType)
    (ent : Option Entity) (data : Value) (r : Value × ReadCtx)
    (h : traverseValue n ctx ss ty ent data = some r) :
    traverseValue m ctx ss ty ent data = some r := by
  induction m, hnm using Nat.le_induction with
  | base => exact h
  | succ m hm ih => exact (readMono m).2.1 _ _ _ _ _ _ ih

theorem traverseFields_mono {n m : Nat} (hnm : n ≤ m) (ctx : ReadCtx)
    (ty : Option ValueType) (data : Value)
    (dataFields : List (String × Value)) (expMap : List (String × Int))
    (invMap : List (String × Bool))
    (sels : List (String × Option String × Option SelectionSetNode))
    (acc : List (String × Value)) (r : List (String × Value) × ReadCtx)
    (h : traverseFields n ctx ty data dataFields expMap invMap sels acc =
      some r) :
    traverseFields m ctx ty data dataFields expMap invMap sels acc =
      some r := by
  induction m, hnm using Nat.le_induction with
  | base => exact h
  | succ m hm ih => exact (readMono m).2.2.2.1 _ _ _ _ _ _ _ _ _ ih

theorem traverseField_mono {n m : Nat} (hnm : n ≤ m) (ctx : ReadCtx)
    (ty : Option ValueType) (data : Value)
    (dataFields : List (String × Value)) (expMap : List (String × Int))
    (invMap : List (String × Bool))
    (sf : String × Option String × Option SelectionSetNode)
    (acc : List (String × Value)) (r : List (String × Value) × ReadCtx)
    (h : traverseField n ctx ty data dataFields expMap invMap sf acc =
      some r) :
    traverseField m ctx ty data dataFields expMap invMap sf acc = some r := by
  induction m, hnm using Nat.le_induction with
  | base => exact h
  | succ m hm ih => exact (readMono m).2.2.2.2.1 _ _ _ _ _ _ _ _ _ ih

theorem traverseElems_mono {n m : Nat} (hnm : n ≤ m) (ctx : ReadCtx)
    (ss : Option SelectionSetNode) (oty : Option ValueType)
    (elems : List Value) (i : Nat) (r : List Value × ReadCtx)
    (h : traverseElems n ctx ss oty elems i = some r) :
    traverseElems m ctx ss oty elems i = some r := by
  induction m, hnm using Nat.le_induction with
  | base => exact h
  | succ m hm ih => exact (readMono m).2.2.2.2.2 _ _ _ _ _ _ ih

/-! ### Hypotheses and measures for the amended termination claim -/

mutual
/-- Whether a value contains no object-with-metadata node in a position
the traversal recurses into (plain objects are returned as-is and count
as leaves). -/
def metaFree : Value → Bool
  | .obj _ _ _ => false
  | .arr l => metaFreeList l
  | .undef => true
  | .null => true
  | .bool _ => true
  | .num _ => true
  | .str _ => true
  | .ref _ => true
  | .plainObj _ => true
  | .cyc _ => true

/-- List form of `metaFree`. -/
def metaFreeList : List Value → Bool
  | [] => true
  | v :: vs => metaFree v && metaFreeList vs
end

mutual
/-- Well-behaved schema types: every computed `read` function reachable
from the type returns a metadata-free value (scalars, references, plain
objects, arrays of such), and all nested types are well-behaved too. -/
inductive TypeOK : ValueType → Prop where
  | object (n : Option String) (fields : List (String × FieldConfig))
      (h : ∀ p ∈ fields, FieldConfigOK p.2) : TypeOK (.object n fields)
  | array (n : Option String) (o : Option ValueType)
      (h : ∀ t, o = some t → TypeOK t) : TypeOK (.array n o)
  | boolean (n : Option String) : TypeOK (.boolean n)
  | number (n : Option String) : TypeOK (.number n)
  | string (n : Option String) : TypeOK (.string n)
  | union (ts : List ValueType) (h : ∀ t ∈ ts, TypeOK t) :
      TypeOK (.union ts)
  | nonNullable (t : ValueType) (h : TypeOK t) : TypeOK (.nonNullable t)

/-- Well-behaved field configurations. -/
inductive FieldConfigOK : FieldConfig → Prop where
  | mk (t : Option ValueType)
      (r : Option (Value → (String → Option String → Value) → Value))
      (hr : ∀ rf, r = some rf → ∀ v tr, metaFree (rf v tr) = true)
      (ht : ∀ t0, t = some t0 → TypeOK t0) : FieldConfigOK (.mk t r)
end

/-- Well-behaved optional type. -/
def TypeOKO (ty : Option ValueType) : Prop :=
  ∀ t, ty = some t → TypeOK t

theorem TypeOKO_none : TypeOKO none := fun _ h => Option.noConfusion h

mutual
/-- Structural size of a value. -/
def vsize : Value → Nat
  | .obj flds _ _ => 1 + fsize flds
  | .arr l => 1 + asize l
  | .undef => 1
  | .null => 1
  | .bool _ => 1
  | .num _ => 1
  | .str _ => 1
  | .ref _ => 1
  | .plainObj _ => 1
  | .cyc _ => 1

/-- Structural size of an association list of values. -/
def fsize : List (String × Value) → Nat
  | [] => 0
  | (_, v) :: t => 1 + vsize v + fsize t

/-- Structural size of a list of values. -/
def asize : List Value → Nat
  | [] => 0
  | v :: t => 1 + vsize v + asize t
end

theorem lookupA_mem {α : Type} {l : List (String × α)} {f : String}
    {v : α} (h : lookupA l f = some v) : (f, v) ∈ l := by
  induction l with
  | nil => exact absurd h (by simp [lookupA])
  | cons p t ih =>
    rcases p with ⟨k, w⟩
    unfold lookupA at h
    by_cases hp : k = f
    · rw [if_pos hp] at h
      cases h
      subst hp
      exact List.mem_cons_self _ _
    · rw [if_neg hp] at h
      exact List.mem_cons_of_mem _ (ih h)

theorem vsize_of_mem_fields {flds : List (String × Value)} {f : String}
    {v : Value} (h : (f, v) ∈ flds) : vsize v < 1 + fsize flds := by
  induction flds with
  | nil => cases h
  | cons p t ih =>
    rcases List.mem_cons.mp h with h1 | h2
    · cases h1
      simp only [fsize]
      omega
    · have := ih h2
      rcases p with ⟨s, w⟩
      simp only [fsize]
      omega

theorem vsize_lookup {flds : List (String × Value)}
    {expMap : List (String × Int)} {invMap : List (String × Bool)}
    {f : String} {v : Value} (h : lookupA flds f = some v) :
    vsize v < vsize (.obj flds expMap invMap) := by
  have := vsize_of_mem_fields (lookupA_mem h)
  simp only [vsize]
  omega

theorem vsize_of_mem_arr {l : List Value} {v : Value} (h : v ∈ l) :
    vsize v < vsize (.arr l) := by
  have : vsize v < 1 + asize l := by
    induction l with
    | nil => cases h
    | cons w t ih =>
      rcases List.mem_cons.mp h with h1 | h2
      · cases h1
        simp only [asize]
        omega
      · have := ih h2
        simp only [asize]
        omega
  simpa [vsize] using this

mutual
/-- Size of a selection set. -/
def selSize : SelectionSetNode → Nat
  | .mk _ fields => 1 + selFieldsSize fields

/-- Size of a selection field list. -/
def selFieldsSize :
    List (String × Option String × Option SelectionSetNode) → Nat
  | [] => 0
  | (_, _, sub) :: t => 1 + selOptSize sub + selFieldsSize t

/-- Size of an optional selection set (`none` counts 0). -/
def selOptSize : Option SelectionSetNode → Nat
  | none => 0
  | some s => selSize s
end

/-- Entity ids stored in the consulted store. -/
def entityIds (cache : Cache) (opt : Bool) : List String :=
  (if opt then cache.optimisticEntities else cache.entities).map
    (fun p => p.2.id)

/-- Number of distinct stored entity ids not yet memoized. -/
def unmemoCount (cache : Cache) (opt : Bool) (memo : List String) : Nat :=
  ((entityIds cache opt).filter (fun k => !memo.contains k)).toFinset.card

/-- Termination measure: lexicographic (selection size, unmemoized
entities) packed into one natural number. -/
def muMeasure (cache : Cache) (opt : Bool) (ss : Option SelectionSetNode)
    (memo : List String) : Nat :=
  selOptSize ss * (unmemoCount cache opt [] + 1) + unmemoCount cache opt memo

theorem contains_false_iff (l : List String) (a : String) :
    (l.contains a = false) ↔ a ∉ l := by
  simp

theorem unmemo_le_total (cache : Cache) (opt : Bool) (memo : List String) :
    unmemoCount cache opt memo ≤ unmemoCount cache opt [] := by
  apply Finset.card_le_card
  intro x hx
  simp only [unmemoCount, List.mem_toFinset, List.mem_filter] at hx ⊢
  exact ⟨hx.1, by simp⟩

theorem unmemo_anti (cache : Cache) (opt : Bool) (memo ms : List String) :
    unmemoCount cache opt (memo ++ ms) ≤ unmemoCount cache opt memo := by
  apply Finset.card_le_card
  intro x hx
  simp only [unmemoCount, List.mem_toFinset, List.mem_filter,
    Bool.not_eq_true', contains_false_iff, List.mem_append] at hx ⊢
  exact ⟨hx.1, fun hm => hx.2 (Or.inl hm)⟩

theorem unmemo_strict (cache : Cache) (opt : Bool) (memo : List String)
    {id0 : String} (hid : id0 ∈ entityIds cache opt)
    (hno : memo.contains id0 = false) :
    unmemoCount cache opt (memo ++ [id0]) < unmemoCount cache opt memo := by
  apply Finset.card_lt_card
  constructor
  · intro x hx
    simp only [unmemoCount, List.mem_toFinset, List.mem_filter,
      Bool.not_eq_true', contains_false_iff, List.mem_append] at hx ⊢
    exact ⟨hx.1, fun hm => hx.2 (Or.inl hm)⟩
  · intro hsub
    have hmem : id0 ∈
        ((entityIds cache opt).filter
          (fun k => !memo.contains k)).toFinset := by
      simp only [List.mem_toFinset, List.mem_filter, Bool.not_eq_true',
        contains_false_iff]
      exact ⟨hid, (contains_false_iff memo id0).mp hno⟩
    have := hsub hmem
    simp only [unmemoCount, List.mem_toFinset, List.mem_filter,
      Bool.not_eq_true', contains_false_iff, List.mem_append] at this
    exact this.2 (Or.inr (by simp))

theorem mu_memo_anti (cache : Cache) (opt : Bool)
    (ss : Option SelectionSetNode) (memo ms : List String) :
    muMeasure cache opt ss (memo ++ ms) ≤ muMeasure cache opt ss memo := by
  unfold muMeasure
  have := unmemo_anti cache opt memo ms
  omega

theorem mu_memo_strict (cache : Cache) (opt : Bool) (memo : List String)
    {id0 : String} (hid : id0 ∈ entityIds cache opt)
    (hno : memo.contains id0 = false) :
    muMeasure cache opt none (memo ++ [id0]) <
      muMeasure cache opt none memo := by
  unfold muMeasure
  have := unmemo_strict cache opt memo hid hno
  simp only [selOptSize]
  omega

theorem mu_ss_strict (cache : Cache) (opt : Bool)
    {ss' ss : Option SelectionSetNode} (h : selOptSize ss' < selOptSize ss)
    (memo memo' : List String) :
    muMeasure cache opt ss' memo' < muMeasure cache opt ss memo := by
  unfold muMeasure
  have h1 := unmemo_le_total cache opt memo'
  have h2 : (selOptSize ss' + 1) * (unmemoCount cache opt [] + 1) ≤
      selOptSize ss * (unmemoCount cache opt [] + 1) :=
    Nat.mul_le_mul_right _ h
  have h3 : (selOptSize ss' + 1) * (unmemoCount cache opt [] + 1) =
      selOptSize ss' * (unmemoCount cache opt [] + 1) +
        (unmemoCount cache opt [] + 1) := by ring
  omega

theorem cacheGet_id_mem {cache : Cache} {opt : Bool} {k : String}
    {e : Entity} (h : cacheGet cache k opt = some e) :
    e.id ∈ entityIds cache opt := by
  unfold cacheGet at h
  unfold entityIds
  exact List.mem_map.mpr ⟨(k, e), lookupA_mem h, rfl⟩

theorem mem_insertSelField
    {acc : List (String × Option String × Option SelectionSetNode)}
    {name : String} {al : Option String} {sub : Option SelectionSetNode}
    {p : String × Option String × Option SelectionSetNode}
    (hp : p ∈ insertSelField acc name al sub) :
    p ∈ acc ∨ p = (name, al, sub) := by
  unfold insertSelField at hp
  split at hp
  · obtain ⟨e, he, hev⟩ := List.mem_map.mp hp
    by_cases h1 : (e.1 == name) = true
    · rw [if_pos h1] at hev
      right
      exact hev.symm
    · rw [if_neg h1] at hev
      left
      rw [← hev]
      exact he
  · rcases List.mem_append.mp hp with h1 | h2
    · exact Or.inl h1
    · right
      simpa using h2

theorem mem_foldl_insertSel
    {sfs : List (String × Option String × Option SelectionSetNode)} :
    ∀ {acc0 : List (String × Option String × Option SelectionSetNode)}
      {p : String × Option String × Option SelectionSetNode},
      p ∈ sfs.foldl (fun acc f => insertSelField acc f.1 f.2.1 f.2.2) acc0 →
      p ∈ acc0 ∨ ∃ q ∈ sfs, p = (q.1, q.2.1, q.2.2) := by
  induction sfs with
  | nil => intro acc0 p hp; exact Or.inl hp
  | cons f fs ih =>
    intro acc0 p hp
    rw [List.foldl_cons] at hp
    rcases ih hp with h1 | ⟨q, hq, he⟩
    · rcases mem_insertSelField h1 with h2 | h2
      · exact Or.inl h2
      · exact Or.inr ⟨f, List.mem_cons_self _ _, h2⟩
    · exact Or.inr ⟨q, List.mem_cons_of_mem _ hq, he⟩

theorem getSelectionFields_none_sub
    {sel : Option SelectionSetNode} {ty : Option ValueType}
    {dataFields : List (String × Value)}
    {sf : String × Option String × Option SelectionSetNode}
    (h : sf ∈ getSelectionFields sel none ty dataFields) : sf.2.2 = none := by
  unfold getSelectionFields at h
  obtain ⟨p, _, he⟩ := List.mem_map.mp h
  rw [← he]

theorem selOptSize_of_mem
    {sfs : List (String × Option String × Option SelectionSetNode)}
    {q : String × Option String × Option SelectionSetNode} (hq : q ∈ sfs) :
    selOptSize q.2.2 < 1 + selFieldsSize sfs := by
  induction sfs with
  | nil => cases hq
  | cons f fs ih =>
    rcases List.mem_cons.mp hq with h1 | h2
    · subst h1
      rcases q with ⟨a, b, c⟩
      simp only [selFieldsSize]
      omega
    · have := ih h2
      rcases f with ⟨a, b, c⟩
      simp only [selFieldsSize]
      omega

theorem getSelectionFields_some_sub
    {sel : Option SelectionSetNode} {ty : Option ValueType}
    {dataFields : List (String × Value)} {star : Bool}
    {sfs : List (String × Option String × Option SelectionSetNode)}
    {sf : String × Option String × Option SelectionSetNode}
    (h : sf ∈ getSelectionFields sel (some (.mk star sfs)) ty dataFields) :
    selOptSize sf.2.2 < selSize (.mk star sfs) := by
  rw [show getSelectionFields sel (some (.mk star sfs)) ty dataFields =
    (if star then
      (sfs.foldl (fun acc f => insertSelField acc f.1 f.2.1 f.2.2) []) ++
        (dataFields.filter (fun p =>
          !((sfs.foldl (fun acc f => insertSelField acc f.1 f.2.1 f.2.2)
            []).any (fun e => e.1 == p.1)))).map (fun p => (p.1, none, none))
    else sfs.foldl (fun acc f => insertSelField acc f.1 f.2.1 f.2.2) [])
    from rfl] at h
  have hexp : ∀ p, p ∈ sfs.foldl
      (fun acc f => insertSelField acc f.1 f.2.1 f.2.2) [] →
      selOptSize p.2.2 < selSize (.mk star sfs) := by
    intro p hp
    rcases mem_foldl_insertSel hp with h1 | ⟨q, hq, he⟩
    · cases h1
    · rw [he]
      simp only [selSize]
      exact selOptSize_of_mem hq
  by_cases hst : star = true
  · rw [if_pos hst] at h
    rcases List.mem_append.mp h with h1 | h2
    · exact hexp sf h1
    · obtain ⟨p, _, he⟩ := List.mem_map.mp h2
      rw [← he]
      simp only [selOptSize, selSize]
      omega
  · rw [if_neg hst] at h
    exact hexp sf h

/-! TypeOK transport lemmas -/

theorem resolveWrapped_ok (N : Nat) :
    (∀ (t : ValueType) (v : Value), sizeOf t ≤ N → TypeOK t →
      TypeOK (resolveWrappedType t v))
    ∧ (∀ (ts : List ValueType) (v : Value) (t2 : ValueType),
      sizeOf ts ≤ N → (∀ t ∈ ts, TypeOK t) → firstValid ts v = some t2 →
      TypeOK t2) := by
  induction N using Nat.strong_induction_on with
  | _ N ih =>
    constructor
    · intro t v hsz hok
      cases t with
      | union ts =>
        rw [show resolveWrappedType (.union ts) v =
          (match firstValid ts v with
           | some t2 => t2
           | none => .union ts) from by
            unfold resolveWrappedType
            rfl]
        cases hfv : firstValid ts v with
        | none => exact hok
        | some t2 =>
          cases hok with
          | union _ h =>
            have hts : sizeOf ts < sizeOf (ValueType.union ts) := by
              simp
            cases N with
            | zero => omega
            | succ M =>
              exact (ih M (by omega)).2 ts v t2 (by omega) h hfv
      | nonNullable t2 =>
        cases hok with
        | nonNullable _ h =>
          have ht2 : sizeOf t2 < sizeOf (ValueType.nonNullable t2) := by
            simp
          cases N with
          | zero => omega
          | succ M =>
            cases v <;>
              first
                | exact TypeOK.nonNullable t2 h
                | exact (ih M (by omega)).1 t2 _ (by omega) h
      | object n fields => exact hok
      | array n o => exact hok
      | boolean n => exact hok
      | number n => exact hok
      | string n => exact hok
    · intro ts v t2 hsz hall hfv
      cases ts with
      | nil => exact absurd hfv (by simp [firstValid])
      | cons t rest =>
        unfold firstValid at hfv
        by_cases hv : isValid t v = true
        · rw [if_pos hv] at hfv
          cases hfv
          have : sizeOf t < sizeOf (t :: rest) := by
            simp
            omega
          cases N with
          | zero => omega
          | succ M =>
            exact (ih M (by omega)).1 t v (by omega)
              (hall t (List.mem_cons_self _ _))
        · rw [if_neg hv] at hfv
          have : sizeOf rest < sizeOf (t :: rest) := by
            simp
          cases N with
          | zero => omega
          | succ M =>
            exact (ih M (by omega)).2 rest v t2 (by omega)
              (fun t0 ht0 => hall t0 (List.mem_cons_of_mem _ ht0)) hfv

theorem resolveWrappedType_ok {t : ValueType} {v : Value} (h : TypeOK t) :
    TypeOK (resolveWrappedType t v) :=
  (resolveWrapped_ok (sizeOf t)).1 t v (le_refl _) h

theorem validatedType_ok {ty : Option ValueType} {data : Value}
    (h : TypeOKO ty) : TypeOKO (validatedType ty data) := by
  cases ty with
  | none => exact TypeOKO_none
  | some t =>
    rw [show validatedType (some t) data =
      (if isValid t data then some (resolveWrappedType t data) else some t)
      from rfl]
    by_cases hv : isValid t data = true
    · rw [if_pos hv]
      intro t2 ht2
      cases ht2
      exact resolveWrappedType_ok (h t rfl)
    · rw [if_neg hv]
      intro t2 ht2
      cases ht2
      exact h t rfl

theorem maybeGetfieldType_ok {ty : Option ValueType} {f : String}
    {fc : FieldConfig} (hok : TypeOKO ty)
    (h : maybeGetfieldType ty f = some fc) : FieldConfigOK fc := by
  cases ty with
  | none => exact absurd h (by simp [maybeGetfieldType])
  | some t =>
    cases t with
    | object n fields =>
      unfold maybeGetfieldType at h
      have := hok (.object n fields) rfl
      cases this with
      | object _ _ hfield => exact hfield (f, fc) (lookupA_mem h)
    | array n o => exact absurd h (by simp [maybeGetfieldType])
    | boolean n => exact absurd h (by simp [maybeGetfieldType])
    | number n => exact absurd h (by simp [maybeGetfieldType])
    | string n => exact absurd h (by simp [maybeGetfieldType])
    | union ts => exact absurd h (by simp [maybeGetfieldType])
    | nonNullable t2 => exact absurd h (by simp [maybeGetfieldType])

theorem fieldType_ok {fc : FieldConfig} (h : FieldConfigOK fc) :
    TypeOKO fc.type := by
  cases h with
  | mk t r hr ht =>
    intro t0 ht0
    exact ht t0 ht0

theorem fieldRead_metaFree {fc : FieldConfig} (h : FieldConfigOK fc)
    {rf : Value → (String → Option String → Value) → Value}
    (hrf : fc.read = some rf) (v : Value)
    (tr : String → Option String → Value) : metaFree (rf v tr) = true := by
  cases h with
  | mk t r hr ht => exact hr rf hrf v tr

theorem bindFieldType_ok {tf : Option FieldConfig}
    (h : ∀ fc, tf = some fc → FieldConfigOK fc) :
    TypeOKO (tf.bind FieldConfig.type) := by
  cases tf with
  | none => exact TypeOKO_none
  | some fc =>
    intro t0 ht0
    exact fieldType_ok (h fc rfl) t0 ht0

theorem arrayElemType_ok {ty : Option ValueType} (h : TypeOKO ty) :
    TypeOKO (arrayElemType ty) := by
  cases ty with
  | none => exact TypeOKO_none
  | some t =>
    cases t with
    | array n o =>
      have := h (.array n o) rfl
      cases this with
      | array _ _ ho =>
        intro t0 ht0
        exact ho t0 (by simpa [arrayElemType] using ht0)
    | object n fields => exact TypeOKO_none
    | boolean n => exact TypeOKO_none
    | number n => exact TypeOKO_none
    | string n => exact TypeOKO_none
    | union ts => exact TypeOKO_none
    | nonNullable t2 => exact TypeOKO_none

theorem metaFree_of_mem {l : List Value} {d : Value}
    (hl : metaFreeList l = true) (hd : d ∈ l) : metaFree d = true := by
  induction l with
  | nil => cases hd
  | cons v vs ih =>
    unfold metaFreeList at hl
    rw [Bool.and_eq_true] at hl
    rcases List.mem_cons.mp hd with h1 | h2
    · rw [h1]; exact hl.1
    · exact ih hl.2 h2

/-- Assembly: a successful fields loop yields a successful object
traversal two fuel levels up. -/
theorem tv_obj_chain (nF : Nat) (ctx : ReadCtx)
    (ss : Option SelectionSetNode) (ty : Option ValueType)
    (ent : Option Entity) (dF : List (String × Value))
    (eM : List (String × Int)) (iM : List (String × Bool))
    (rF : List (String × Value) × ReadCtx)
    (hF : traverseFields nF
      (memoCtx (applyValidation ty (.obj dF eM iM) ctx).2 ent ss)
      (applyValidation ty (.obj dF eM iM) ctx).1 (.obj dF eM iM) dF eM iM
      (getSelectionFields (applyValidation ty (.obj dF eM iM) ctx).2.selector
        ss (applyValidation ty (.obj dF eM iM) ctx).1 dF) [] = some rF) :
    traverseValue (nF + 2) ctx ss ty ent (.obj dF eM iM) =
      some (.plainObj rF.1, rF.2) := by
  rw [traverseValue_not_ref (nF + 1) ctx ss ty ent (.obj dF eM iM) rfl]
  rw [traverseValueRest_obj]
  simp only [hF]

/-- Assembly: a successful value traversal of the entity's value yields
a successful entity traversal one fuel level up, in the non-memoized
branch. -/
theorem te_chain {n : Nat} {ctx : ReadCtx} {k : String}
    {ty : Option ValueType} {ss : Option SelectionSetNode} {e : Entity}
    {r : Value × ReadCtx}
    (hget : cacheGet ctx.cache k ctx.optimistic = some e)
    (hmem : ¬(ss.isNone && ctx.fullEntityResults.contains e.id) = true)
    (htv : traverseValue n
      (checkInvalidated (checkExpiresAt ctx e.expiresAt) e.invalidated)
      ss ty (some e) e.value = some r) :
    traverseEntity (n + 1) ctx k ty ss = some r := by
  rw [traverseEntity_succ]
  simp only [hget]
  rw [if_neg hmem]
  exact htv

/-- Termination of the field loop, given termination of the value
traversal for every selected field. -/
theorem fieldsTerm (cache : Cache) (opt : Bool) (memo0 : List String)
    (ty : Option ValueType) (data : Value)
    (dataFields : List (String × Value)) (expMap : List (String × Int))
    (invMap : List (String × Bool)) :
    ∀ (sels : List (String × Option String × Option SelectionSetNode)),
    (∀ sf ∈ sels, ∀ (ctx2 : ReadCtx), ctx2.cache = cache →
      ctx2.optimistic = opt →
      (∃ ms, ctx2.fullEntityResults = memo0 ++ ms) → ∀ fv,
      resolveFieldValue cache (maybeGetfieldType ty sf.1) dataFields data
        sf.1 = some fv →
      ∃ n r, traverseValue n ctx2 sf.2.2
        ((maybeGetfieldType ty sf.1).bind FieldConfig.type) none fv =
        some r) →
    ∀ (ctx : ReadCtx) (acc : List (String × Value)), ctx.cache = cache →
      ctx.optimistic = opt →
      (∃ ms, ctx.fullEntityResults = memo0 ++ ms) →
      ∃ n r, traverseFields n ctx ty data dataFields expMap invMap sels acc =
        some r := by
  intro sels
  induction sels with
  | nil =>
    intro _ ctx acc _ _ _
    exact ⟨1, (acc, ctx), rfl⟩
  | cons sf rest ih =>
    intro hTV ctx acc hc ho hext
    cases hrv : resolveFieldValue cache (maybeGetfieldType ty sf.1)
        dataFields data sf.1 with
    | none =>
      have hF : traverseField 1 ctx ty data dataFields expMap invMap sf acc =
          some (acc, popPath (addMissingField (pushPath ctx (.fld sf.1)))) := by
        rw [traverseField_succ]
        rw [hc]
        simp only [hrv]
      obtain ⟨n2, r2, h2⟩ := ih
        (fun sf2 hsf2 => hTV sf2 (List.mem_cons_of_mem _ hsf2))
        (popPath (addMissingField (pushPath ctx (.fld sf.1)))) acc
        (by simp [popPath, addMissingField, pushPath, hc])
        (by simp [popPath, addMissingField, pushPath, ho])
        (by simpa [popPath, addMissingField, pushPath] using hext)
      refine ⟨max 1 n2 + 1, r2, ?_⟩
      rw [traverseFields_cons]
      simp only [traverseField_mono (le_max_left 1 n2) _ _ _ _ _ _ _ _ _ hF]
      exact traverseFields_mono (le_max_right 1 n2) _ _ _ _ _ _ _ _ _ h2
    | some fv =>
      have hctx3c : (checkInvalidated
          (checkExpiresAt (pushPath ctx (.fld sf.1))
            (metaExpiresAt expMap sf.1))
          (metaInvalidated invMap sf.1)).cache = cache := by
        simp [checkExpiresAt_eq, checkInvalidated_eq, pushPath, hc]
      have hctx3o : (checkInvalidated
          (checkExpiresAt (pushPath ctx (.fld sf.1))
            (metaExpiresAt expMap sf.1))
          (metaInvalidated invMap sf.1)).optimistic = opt := by
        simp [checkExpiresAt_eq, checkInvalidated_eq, pushPath, ho]
      have hctx3m : (checkInvalidated
          (checkExpiresAt (pushPath ctx (.fld sf.1))
            (metaExpiresAt expMap sf.1))
          (metaInvalidated invMap sf.1)).fullEntityResults =
          ctx.fullEntityResults := by
        simp [checkExpiresAt_eq, checkInvalidated_eq, pushPath]
      obtain ⟨n1, r1, h1⟩ := hTV sf (List.mem_cons_self _ _) _ hctx3c hctx3o
        (by rw [hctx3m]; exact hext) fv hrv
      have hF : traverseField (n1 + 1) ctx ty data dataFields expMap invMap
          sf acc = some (setField acc (sf.2.1.getD sf.1) r1.1, popPath r1.2) := by
        rw [traverseField_succ]
        rw [hc]
        simp only [hrv]
        simp only [show traverseValue n1
          (checkInvalidated
            (checkExpiresAt (pushPath ctx (.fld sf.1))
              (metaExpiresAt expMap sf.1))
            (metaInvalidated invMap sf.1))
          sf.2.2 ((maybeGetfieldType ty sf.1).bind FieldConfig.type) none fv =
          some (r1.1, r1.2) from h1]
      obtain ⟨hf1, hf2, hf3, ms1, hf4⟩ := (readFrame n1).2.1 _ _ _ _ _ _ _ h1
      obtain ⟨ms0, hms0⟩ := hext
      obtain ⟨n2, r2, h2⟩ := ih
        (fun sf2 hsf2 => hTV sf2 (List.mem_cons_of_mem _ hsf2))
        (popPath r1.2) (setField acc (sf.2.1.getD sf.1) r1.1)
        (by rw [popPath]; rw [hf1, hctx3c])
        (by rw [popPath]; rw [hf2, hctx3o])
        (by
          refine ⟨ms0 ++ ms1, ?_⟩
          rw [popPath]
          simp only [hf4, hctx3m, hms0, List.append_assoc])
      refine ⟨max (n1 + 1) n2 + 1, r2, ?_⟩
      rw [traverseFields_cons]
      simp only [traverseField_mono (le_max_left (n1 + 1) n2) _ _ _ _ _ _ _ _
        _ hF]
      exact traverseFields_mono (le_max_right (n1 + 1) n2) _ _ _ _ _ _ _ _ _
        h2

/-- Termination of the element loop, given termination of the value
traversal for every element. -/
theorem elemsTerm (cache : Cache) (opt : Bool) (memo0 : List String)
    (ss : Option SelectionSetNode) (oty : Option ValueType) :
    ∀ (elems : List Value),
    (∀ d ∈ elems, ∀ (ctx2 : ReadCtx), ctx2.cache = cache →
      ctx2.optimistic = opt →
      (∃ ms, ctx2.fullEntityResults = memo0 ++ ms) →
      ∃ n r, traverseValue n ctx2 ss oty none d = some r) →
    ∀ (ctx : ReadCtx) (i : Nat), ctx.cache = cache → ctx.optimistic = opt →
      (∃ ms, ctx.fullEntityResults = memo0 ++ ms) →
      ∃ n r, traverseElems n ctx ss oty elems i = some r := by
  intro elems
  induction elems with
  | nil =>
    intro _ ctx i _ _ _
    exact ⟨1, ([], ctx), rfl⟩
  | cons d ds ih =>
    intro hTV ctx i hc ho hext
    obtain ⟨ms0, hms0⟩ := hext
    obtain ⟨n1, r1, h1⟩ := hTV d (List.mem_cons_self _ _) (pushPath ctx (.idx i))
      (by simp [pushPath, hc]) (by simp [pushPath, ho])
      (by simpa [pushPath] using ⟨ms0, hms0⟩)
    obtain ⟨hf1, hf2, hf3, ms1, hf4⟩ := (readFrame n1).2.1 _ _ _ _ _ _ _ h1
    obtain ⟨n2, r2, h2⟩ := ih
      (fun d2 hd2 => hTV d2 (List.mem_cons_of_mem _ hd2))
      (popPath r1.2) (i + 1)
      (by rw [popPath]; rw [hf1]; simp [pushPath, hc])
      (by rw [popPath]; rw [hf2]; simp [pushPath, ho])
      (by
        refine ⟨ms0 ++ ms1, ?_⟩
        rw [popPath]
        simp only [hf4, pushPath, hms0, List.append_assoc])
    refine ⟨max n1 n2 + 1, (r1.1 :: r2.1, r2.2), ?_⟩
    rw [traverseElems_cons]
    simp only [traverseValue_mono (le_max_left n1 n2) _ _ _ _ _ _
      (show traverseValue n1 (pushPath ctx (.idx i)) ss oty none d =
        some (r1.1, r1.2) from h1)]
    simp only [traverseElems_mono (le_max_right n1 n2) _ _ _ _ _ _
      (show traverseElems n2 (popPath r1.2) ss oty ds (i + 1) =
        some (r2.1, r2.2) from h2)]

/-- The suffix `memoCtx` appends to the memoization table. -/
def memoTail (ent : Option Entity) (ss : Option SelectionSetNode) :
    List String :=
  match ent with
  | some e => if ss.isNone then [e.id] else []
  | none => []

theorem memoListStep_append (memo : List String) (ent : Option Entity)
    (ss : Option SelectionSetNode) :
    memoListStep memo ent ss = memo ++ memoTail ent ss := by
  cases ent with
  | none => simp [memoListStep, memoTail]
  | some e =>
    by_cases hss : ss.isNone = true <;> simp [memoListStep, memoTail, hss]

/-- Leaf values terminate in two steps of fuel. -/
theorem tv_leaf (ctx : ReadCtx) (ss : Option SelectionSetNode)
    (ty : Option ValueType) (ent : Option Entity) (data : Value)
    (h1 : isReference data = false) (h2 : isObjectWithMeta data = false)
    (h3 : ∀ l, data ≠ .arr l) :
    traverseValue (0 + 1 + 1) ctx ss ty ent data =
      some (data, (applyValidation ty data ctx).2) := by
  rw [traverseValue_not_ref (0 + 1) ctx ss ty ent data h1]
  exact traverseValueRest_other 0 _ _ _ _ _ h2 h3

/-- Termination of the value traversal on metadata-free values, assuming
termination of the entity traversal below measure bound `N`. -/
theorem metaFreeTerm (cache : Cache) (opt : Bool) (N : Nat)
    (hTE : ∀ (ss : Option SelectionSetNode) (ctx : ReadCtx) (k : String)
      (ty : Option ValueType),
      muMeasure cache opt ss ctx.fullEntityResults ≤ N →
      ctx.cache = cache → ctx.optimistic = opt → TypeOKO ty →
      ∃ n r, traverseEntity n ctx k ty ss = some r) :
    ∀ (V : Nat) (val : Value), vsize val ≤ V → metaFree val = true →
    ∀ (ss : Option SelectionSetNode) (ctx : ReadCtx) (ty : Option ValueType)
      (ent : Option Entity),
      muMeasure cache opt ss ctx.fullEntityResults ≤ N →
      ctx.cache = cache → ctx.optimistic = opt → TypeOKO ty →
      ∃ n r, traverseValue n ctx ss ty ent val = some r := by
  intro V
  induction V using Nat.strong_induction_on with
  | _ V ihV =>
    intro val hV hmf ss ctx ty ent hμ hc ho hok
    cases val with
    | obj dF eM iM => exact absurd hmf (by simp [metaFree])
    | ref k =>
      obtain ⟨n, r, h⟩ := hTE ss ctx k ty hμ hc ho hok
      exact ⟨n + 1, r,
        by
          rw [show traverseValue (n + 1) ctx ss ty ent (.ref k) =
            traverseEntity n ctx k ty ss from rfl]
          exact h⟩
    | arr l =>
      have hmfl : metaFreeList l = true := by simpa [metaFree] using hmf
      have helem : ∀ d ∈ l, ∀ (ctx2 : ReadCtx), ctx2.cache = cache →
          ctx2.optimistic = opt →
          (∃ ms, ctx2.fullEntityResults = ctx.fullEntityResults ++ ms) →
          ∃ n r, traverseValue n ctx2 ss
            (arrayElemType (validatedType ty (.arr l))) none d = some r := by
        intro d hd ctx2 hc2 ho2 hext2
        obtain ⟨ms, hms⟩ := hext2
        have hμ2 : muMeasure cache opt ss ctx2.fullEntityResults ≤ N := by
          rw [hms]
          exact le_trans (mu_memo_anti cache opt ss _ ms) hμ
        have hsz : vsize d < V := lt_of_lt_of_le (vsize_of_mem_arr hd) hV
        exact ihV (vsize d) hsz d (le_refl _) (metaFree_of_mem hmfl hd) ss
          ctx2 _ none hμ2 hc2 ho2 (arrayElemType_ok (validatedType_ok hok))
      obtain ⟨nE, rE, hE⟩ := elemsTerm cache opt ctx.fullEntityResults ss
        (arrayElemType (validatedType ty (.arr l))) l helem
        (applyValidation ty (.arr l) ctx).2 0
        (by rw [applyValidation_snd]; simpa using hc)
        (by rw [applyValidation_snd]; simpa using ho)
        ⟨[], by rw [applyValidation_snd]; simp⟩
      refine ⟨nE + 1 + 1, (.arr rE.1, rE.2), ?_⟩
      rw [traverseValue_not_ref (nE + 1) ctx ss ty ent (.arr l) rfl]
      rw [traverseValueRest_arr]
      rw [applyValidation_fst]
      simp only [show traverseElems nE (applyValidation ty (.arr l) ctx).2 ss
        (arrayElemType (validatedType ty (.arr l))) l 0 = some (rE.1, rE.2)
        from hE]
    | undef =>
      exact ⟨0 + 1 + 1, _, tv_leaf ctx ss ty ent .undef rfl rfl
        (fun l h => nomatch h)⟩
    | null =>
      exact ⟨0 + 1 + 1, _, tv_leaf ctx ss ty ent .null rfl rfl
        (fun l h => nomatch h)⟩
    | bool b =>
      exact ⟨0 + 1 + 1, _, tv_leaf ctx ss ty ent (.bool b) rfl rfl
        (fun l h => nomatch h)⟩
    | num x =>
      exact ⟨0 + 1 + 1, _, tv_leaf ctx ss ty ent (.num x) rfl rfl
        (fun l h => nomatch h)⟩
    | str s =>
      exact ⟨0 + 1 + 1, _, tv_leaf ctx ss ty ent (.str s) rfl rfl
        (fun l h => nomatch h)⟩
    | plainObj fs =>
      exact ⟨0 + 1 + 1, _, tv_leaf ctx ss ty ent (.plainObj fs) rfl rfl
        (fun l h => nomatch h)⟩
    | cyc k =>
      exact ⟨0 + 1 + 1, _, tv_leaf ctx ss ty ent (.cyc k) rfl rfl
        (fun l h => nomatch h)⟩

/-- An object value terminates whenever every selected field's value
traversal terminates on every context extending the memo table. -/
theorem tv_obj_term (cache : Cache) (opt : Bool) (ctx : ReadCtx)
    (ss : Option SelectionSetNode) (ty : Option ValueType)
    (ent : Option Entity) (dF : List (String × Value))
    (eM : List (String × Int)) (iM : List (String × Bool))
    (hc : ctx.cache = cache) (ho : ctx.optimistic = opt)
    (hTV : ∀ sf ∈ getSelectionFields
        (applyValidation ty (.obj dF eM iM) ctx).2.selector ss
        (applyValidation ty (.obj dF eM iM) ctx).1 dF,
      ∀ (ctx2 : ReadCtx), ctx2.cache = cache → ctx2.optimistic = opt →
      (∃ ms, ctx2.fullEntityResults =
        (ctx.fullEntityResults ++ memoTail ent ss) ++ ms) → ∀ fv,
      resolveFieldValue cache
        (maybeGetfieldType (applyValidation ty (.obj dF eM iM) ctx).1 sf.1)
        dF (.obj dF eM iM) sf.1 = some fv →
      ∃ n r, traverseValue n ctx2 sf.2.2
        ((maybeGetfieldType (applyValidation ty (.obj dF eM iM) ctx).1
          sf.1).bind FieldConfig.type) none fv = some r) :
    ∃ n r, traverseValue n ctx ss ty ent (.obj dF eM iM) = some r := by
  have hVc : (applyValidation ty (.obj dF eM iM) ctx).2.cache = cache := by
    rw [applyValidation_snd]; exact hc
  have hVo : (applyValidation ty (.obj dF eM iM) ctx).2.optimistic = opt := by
    rw [applyValidation_snd]; exact ho
  have hVm : (applyValidation ty (.obj dF eM iM) ctx).2.fullEntityResults =
      ctx.fullEntityResults := by
    rw [applyValidation_snd]
  have hMm : (memoCtx (applyValidation ty (.obj dF eM iM) ctx).2 ent
      ss).fullEntityResults = ctx.fullEntityResults ++ memoTail ent ss := by
    rw [memoCtx_fullEntityResults, memoListStep_append, hVm]
  obtain ⟨nF, rF, hF⟩ := fieldsTerm cache opt
    (ctx.fullEntityResults ++ memoTail ent ss)
    (applyValidation ty (.obj dF eM iM) ctx).1 (.obj dF eM iM) dF eM iM
    (getSelectionFields (applyValidation ty (.obj dF eM iM) ctx).2.selector
      ss (applyValidation ty (.obj dF eM iM) ctx).1 dF)
    hTV (memoCtx (applyValidation ty (.obj dF eM iM) ctx).2 ent ss) []
    (by rw [memoCtx_eq]; exact hVc) (by rw [memoCtx_eq]; exact hVo)
    ⟨[], by rw [hMm]; simp⟩
  exact ⟨nF + 2, (.plainObj rF.1, rF.2),
    tv_obj_chain nF ctx ss ty ent dF eM iM rF hF⟩

/-- Every entity value stored in the consulted store (the optimistic
store when the flag is set, else the confirmed store) is an object with
metadata maps.  This is the store invariant `H1` of the amended
termination claim; the write operation only ever stores such objects. -/
def storeOK (cache : Cache) (opt : Bool) : Bool :=
  (if opt then cache.optimisticEntities else cache.entities).all
    (fun p => isObjectWithMeta p.2.value)

theorem storeOK_get {cache : Cache} {k : String} {opt : Bool} {e : Entity}
    (hs : storeOK cache opt = true) (h : cacheGet cache k opt = some e) :
    isObjectWithMeta e.value = true := by
  rw [storeOK] at hs
  cases opt with
  | false =>
    have hm : (k, e) ∈ cache.entities := lookupA_mem h
    exact List.all_eq_true.mp hs (k, e) hm
  | true =>
    have hm : (k, e) ∈ cache.optimisticEntities := lookupA_mem h
    exact List.all_eq_true.mp hs (k, e) hm

/-- Main termination induction: with the store invariant and well-behaved
types, the entity and value traversals succeed at some finite fuel, by
strong induction on `muMeasure`. -/
theorem traverseTerm (cache : Cache) (opt : Bool)
    (H1 : storeOK cache opt = true) :
    ∀ N : Nat,
    (∀ (ss : Option SelectionSetNode) (ctx : ReadCtx) (k : String)
      (ty : Option ValueType),
      muMeasure cache opt ss ctx.fullEntityResults ≤ N →
      ctx.cache = cache → ctx.optimistic = opt → TypeOKO ty →
      ∃ n r, traverseEntity n ctx k ty ss = some r)
    ∧ (∀ (ss : Option SelectionSetNode) (ctx : ReadCtx)
      (ty : Option ValueType) (ent : Option Entity) (data : Value),
      muMeasure cache opt ss ctx.fullEntityResults ≤ N →
      ctx.cache = cache → ctx.optimistic = opt → TypeOKO ty →
      ∃ n r, traverseValue n ctx ss ty ent data = some r) := by
  intro N
  induction N using Nat.strong_induction_on with
  | _ N ih =>
    have hTE : ∀ (ss : Option SelectionSetNode) (ctx : ReadCtx) (k : String)
        (ty : Option ValueType),
        muMeasure cache opt ss ctx.fullEntityResults ≤ N →
        ctx.cache = cache → ctx.optimistic = opt → TypeOKO ty →
        ∃ n r, traverseEntity n ctx k ty ss = some r := by
      intro ss ctx k ty hμ hc ho hok
      cases hget : cacheGet ctx.cache k ctx.optimistic with
      | none =>
        exact ⟨0 + 1, (.undef, addMissingField ctx), by
          rw [traverseEntity_succ]
          simp only [hget]⟩
      | some e =>
        by_cases hmem :
            (ss.isNone && ctx.fullEntityResults.contains e.id) = true
        · exact ⟨0 + 1, (.cyc e.id, ctx), by
            rw [traverseEntity_succ]
            simp only [hget]
            rw [if_pos hmem]⟩
        · have hget' : cacheGet cache k opt = some e := by
            rw [← hc, ← ho]; exact hget
          have hobj := storeOK_get H1 hget'
          obtain ⟨dF, eM, iM, hval⟩ :
              ∃ dF eM iM, e.value = Value.obj dF eM iM := by
            cases hv : e.value <;> first
              | exact ⟨_, _, _, rfl⟩
              | (rw [hv] at hobj
                 exact absurd hobj (by simp [isObjectWithMeta]))
          have hCc : (checkInvalidated (checkExpiresAt ctx e.expiresAt)
              e.invalidated).cache = cache := by
            rw [checkInvalidated_eq, checkExpiresAt_eq]; exact hc
          have hCo : (checkInvalidated (checkExpiresAt ctx e.expiresAt)
              e.invalidated).optimistic = opt := by
            rw [checkInvalidated_eq, checkExpiresAt_eq]; exact ho
          have hCm : (checkInvalidated (checkExpiresAt ctx e.expiresAt)
              e.invalidated).fullEntityResults = ctx.fullEntityResults := by
            rw [checkInvalidated_eq, checkExpiresAt_eq]
          have htyV : TypeOKO (applyValidation ty (.obj dF eM iM)
              (checkInvalidated (checkExpiresAt ctx e.expiresAt)
                e.invalidated)).1 := by
            rw [applyValidation_fst]; exact validatedType_ok hok
          have hokF : ∀ sf : String × Option String × Option SelectionSetNode,
              TypeOKO ((maybeGetfieldType
                (applyValidation ty (.obj dF eM iM)
                  (checkInvalidated (checkExpiresAt ctx e.expiresAt)
                    e.invalidated)).1 sf.1).bind FieldConfig.type) :=
            fun sf => bindFieldType_ok (fun fc h => maybeGetfieldType_ok htyV h)
          cases ss with
          | none =>
            have hC : ctx.fullEntityResults.contains e.id = false := by
              cases hx : ctx.fullEntityResults.contains e.id with
              | false => rfl
              | true =>
                exact absurd (by
                  simp only [Option.isNone_none, Bool.true_and]
                  exact hx) hmem
            obtain ⟨n, r, htv⟩ := tv_obj_term cache opt
              (checkInvalidated (checkExpiresAt ctx e.expiresAt)
                e.invalidated) none ty (some e) dF eM iM hCc hCo
              (by
                intro sf hsf ctx2 hc2 ho2 hext2 fv _
                have hsub : sf.2.2 = none := getSelectionFields_none_sub hsf
                obtain ⟨ms, hms⟩ := hext2
                have hms' : ctx2.fullEntityResults =
                    (ctx.fullEntityResults ++ [e.id]) ++ ms := by
                  rw [hms, hCm]
                  rfl
                have hμ2 : muMeasure cache opt sf.2.2
                    ctx2.fullEntityResults < N := by
                  rw [hsub, hms']
                  exact lt_of_le_of_lt (mu_memo_anti cache opt none _ ms)
                    (lt_of_lt_of_le
                      (mu_memo_strict cache opt ctx.fullEntityResults
                        (cacheGet_id_mem hget') hC) hμ)
                exact (ih _ hμ2).2 sf.2.2 ctx2 _ none fv (le_refl _) hc2 ho2
                  (hokF sf))
            refine ⟨n + 1, r, ?_⟩
            apply te_chain hget hmem
            rw [hval]
            exact htv
          | some s =>
            obtain ⟨star, sfs⟩ := s
            obtain ⟨n, r, htv⟩ := tv_obj_term cache opt
              (checkInvalidated (checkExpiresAt ctx e.expiresAt)
                e.invalidated) (some (.mk star sfs)) ty (some e) dF eM iM
              hCc hCo
              (by
                intro sf hsf ctx2 hc2 ho2 _ fv _
                have hlt := getSelectionFields_some_sub hsf
                have hμ2 : muMeasure cache opt sf.2.2
                    ctx2.fullEntityResults < N :=
                  lt_of_lt_of_le
                    (@mu_ss_strict cache opt sf.2.2 (some (.mk star sfs)) hlt
                      ctx.fullEntityResults ctx2.fullEntityResults) hμ
                exact (ih _ hμ2).2 sf.2.2 ctx2 _ none fv (le_refl _) hc2 ho2
                  (hokF sf))
            refine ⟨n + 1, r, ?_⟩
            apply te_chain hget hmem
            rw [hval]
            exact htv
    refine ⟨hTE, ?_⟩
    suffices hQ : ∀ (W : Nat) (data : Value), vsize data ≤ W →
        ∀ (ss : Option SelectionSetNode) (ctx : ReadCtx)
          (ty : Option ValueType) (ent : Option Entity),
          muMeasure cache opt ss ctx.fullEntityResults ≤ N →
          ctx.cache = cache → ctx.optimistic = opt → TypeOKO ty →
          ∃ n r, traverseValue n ctx ss ty ent data = some r by
      intro ss ctx ty ent data hμ hc ho hok
      exact hQ (vsize data) data (le_refl _) ss ctx ty ent hμ hc ho hok
    intro W
    induction W using Nat.strong_induction_on with
    | _ W ihW =>
      intro data hW ss ctx ty ent hμ hc ho hok
      cases data with
      | ref k =>
        obtain ⟨n, r, h⟩ := hTE ss ctx k ty hμ hc ho hok
        exact ⟨n + 1, r, by
          rw [show traverseValue (n + 1) ctx ss ty ent (.ref k) =
            traverseEntity n ctx k ty ss from rfl]
          exact h⟩
      | arr l =>
        have helem : ∀ d ∈ l, ∀ (ctx2 : ReadCtx), ctx2.cache = cache →
            ctx2.optimistic = opt →
            (∃ ms, ctx2.fullEntityResults = ctx.fullEntityResults ++ ms) →
            ∃ n r, traverseValue n ctx2 ss
              (arrayElemType (validatedType ty (.arr l))) none d = some r := by
          intro d hd ctx2 hc2 ho2 hext2
          obtain ⟨ms, hms⟩ := hext2
          have hμ2 : muMeasure cache opt ss ctx2.fullEntityResults ≤ N := by
            rw [hms]
            exact le_trans (mu_memo_anti cache opt ss _ ms) hμ
          exact ihW (vsize d) (lt_of_lt_of_le (vsize_of_mem_arr hd) hW) d
            (le_refl _) ss ctx2 _ none hμ2 hc2 ho2
            (arrayElemType_ok (validatedType_ok hok))
        obtain ⟨nE, rE, hE⟩ := elemsTerm cache opt ctx.fullEntityResults ss
          (arrayElemType (validatedType ty (.arr l))) l helem
          (applyValidation ty (.arr l) ctx).2 0
          (by rw [applyValidation_snd]; exact hc)
          (by rw [applyValidation_snd]; exact ho)
          ⟨[], by rw [applyValidation_snd]; simp⟩
        refine ⟨nE + 1 + 1, (.arr rE.1, rE.2), ?_⟩
        rw [traverseValue_not_ref (nE + 1) ctx ss ty ent (.arr l) rfl]
        rw [traverseValueRest_arr]
        rw [applyValidation_fst]
        simp only [show traverseElems nE (applyValidation ty (.arr l) ctx).2
          ss (arrayElemType (validatedType ty (.arr l))) l 0 =
          some (rE.1, rE.2) from hE]
      | obj dF eM iM =>
        have htyV : TypeOKO (applyValidation ty (.obj dF eM iM) ctx).1 := by
          rw [applyValidation_fst]; exact validatedType_ok hok
        have hokF : ∀ sf : String × Option String × Option SelectionSetNode,
            TypeOKO ((maybeGetfieldType
              (applyValidation ty (.obj dF eM iM) ctx).1 sf.1).bind
              FieldConfig.type) :=
          fun sf => bindFieldType_ok (fun fc h => maybeGetfieldType_ok htyV h)
        cases ss with
        | none =>
          apply tv_obj_term cache opt ctx none ty ent dF eM iM hc ho
          intro sf hsf ctx2 hc2 ho2 hext2 fv hfv
          have hsub : sf.2.2 = none := getSelectionFields_none_sub hsf
          obtain ⟨ms, hms⟩ := hext2
          have hμ2 : muMeasure cache opt sf.2.2 ctx2.fullEntityResults ≤
              N := by
            rw [hsub, hms]
            exact le_trans (mu_memo_anti cache opt none _ ms)
              (le_trans (mu_memo_anti cache opt none ctx.fullEntityResults
                (memoTail ent none)) hμ)
          cases hmt : maybeGetfieldType
              (applyValidation ty (.obj dF eM iM) ctx).1 sf.1 with
          | some fc =>
            rw [hmt] at hfv
            cases fc with
            | mk t rOpt =>
              cases rOpt with
              | some rf =>
                rw [show resolveFieldValue cache (some (.mk t (some rf))) dF
                  (.obj dF eM iM) sf.1 =
                  some (rf (.obj dF eM iM) (toReferenceFn cache)) from rfl]
                  at hfv
                injection hfv with hfveq
                have hmf : metaFree (rf (.obj dF eM iM)
                    (toReferenceFn cache)) = true :=
                  fieldRead_metaFree (maybeGetfieldType_ok htyV hmt)
                    (show FieldConfig.read (.mk t (some rf)) = some rf
                      from rfl) _ _
                rw [← hfveq]
                have hok2 := hokF sf
                rw [hmt] at hok2
                exact metaFreeTerm cache opt N hTE
                  (vsize (rf (.obj dF eM iM) (toReferenceFn cache))) _
                  (le_refl _) hmf sf.2.2 ctx2 _ none hμ2 hc2 ho2 hok2
              | none =>
                rw [show resolveFieldValue cache (some (.mk t none)) dF
                  (.obj dF eM iM) sf.1 =
                  (if hasOwn dF sf.1 then lookupA dF sf.1 else none)
                  from rfl] at hfv
                have hok2 := hokF sf
                rw [hmt] at hok2
                by_cases hho : hasOwn dF sf.1 = true
                · rw [if_pos hho] at hfv
                  exact ihW (vsize fv)
                    (lt_of_lt_of_le (vsize_lookup hfv) hW) fv (le_refl _)
                    sf.2.2 ctx2 _ none hμ2 hc2 ho2 hok2
                · rw [if_neg hho] at hfv
                  exact absurd hfv (by simp)
          | none =>
            rw [hmt] at hfv
            rw [show resolveFieldValue cache none dF (.obj dF eM iM) sf.1 =
              (if hasOwn dF sf.1 then lookupA dF sf.1 else none)
              from rfl] at hfv
            have hok2 := hokF sf
            rw [hmt] at hok2
            by_cases hho : hasOwn dF sf.1 = true
            · rw [if_pos hho] at hfv
              exact ihW (vsize fv) (lt_of_lt_of_le (vsize_lookup hfv) hW) fv
                (le_refl _) sf.2.2 ctx2 _ none hμ2 hc2 ho2 hok2
            · rw [if_neg hho] at hfv
              exact absurd hfv (by simp)
        | some s =>
          obtain ⟨star, sfs⟩ := s
          apply tv_obj_term cache opt ctx (some (.mk star sfs)) ty ent dF eM
            iM hc ho
          intro sf hsf ctx2 hc2 ho2 _ fv _
          have hlt := getSelectionFields_some_sub hsf
          have hμ2 : muMeasure cache opt sf.2.2 ctx2.fullEntityResults <
              N :=
            lt_of_lt_of_le
              (@mu_ss_strict cache opt sf.2.2 (some (.mk star sfs)) hlt
                ctx.fullEntityResults ctx2.fullEntityResults) hμ
          exact (ih _ hμ2).2 sf.2.2 ctx2 _ none fv (le_refl _) hc2 ho2
            (hokF sf)
      | undef =>
        exact ⟨0 + 1 + 1, _, tv_leaf ctx ss ty ent .undef rfl rfl
          (fun l h => nomatch h)⟩
      | null =>
        exact ⟨0 + 1 + 1, _, tv_leaf ctx ss ty ent .null rfl rfl
          (fun l h => nomatch h)⟩
      | bool b =>
        exact ⟨0 + 1 + 1, _, tv_leaf ctx ss ty ent (.bool b) rfl rfl
          (fun l h => nomatch h)⟩
      | num x =>
        exact ⟨0 + 1 + 1, _, tv_leaf ctx ss ty ent (.num x) rfl rfl
          (fun l h => nomatch h)⟩
      | str s =>
        exact ⟨0 + 1 + 1, _, tv_leaf ctx ss ty ent (.str s) rfl rfl
          (fun l h => nomatch h)⟩
      | plainObj fs =>
        exact ⟨0 + 1 + 1, _, tv_leaf ctx ss ty ent (.plainObj fs) rfl rfl
          (fun l h => nomatch h)⟩
      | cyc k2 =>
        exact ⟨0 + 1 + 1, _, tv_leaf ctx ss ty ent (.cyc k2) rfl rfl
          (fun l h => nomatch h)⟩

/-! ### Claim C1 (amended) -/

/-- C1 (amended): provided every entity value stored in the consulted
store is an object with metadata maps (`storeOK`) and every computed
`read` function reachable
from the root type returns metadata-free values (`TypeOK`), a top-level
read terminates for every store state, including cyclic reference
graphs.  Moreover, when an entity is visited with no selection set its
(possibly partially built) result is memoized under its entity key — its
id is appended to the memoization table before its fields are
traversed — and any revisit of the same entity key with no selection set
returns the memoized result object (the cyclic-result marker) with the
context unchanged, instead of traversing the entity again.  Without the
two hypotheses the termination part is refuted by
`C1_counterexample`. -/
theorem C1_memoized_termination :
    (∀ (cache : Cache) (ty : ValueType) (opt : Bool) (opts : ReadOptions)
      (now : Int), storeOK cache opt = true → TypeOK ty →
      ∃ n res, executeRead n cache ty opt opts now = some res)
    ∧ (∀ (ctx : ReadCtx) (e : Entity),
        (memoCtx ctx (some e) none).fullEntityResults =
          ctx.fullEntityResults ++ [e.id])
    ∧ (∀ (fuel : Nat) (ctx : ReadCtx) (k : String) (ty : Option ValueType)
        (e : Entity),
        cacheGet ctx.cache k ctx.optimistic = some e →
        ctx.fullEntityResults.contains e.id = true →
        traverseEntity (fuel + 1) ctx k ty none =
          some (.cyc e.id, ctx)) := by
  refine ⟨?_, ?_, ?_⟩
  · intro cache ty opt opts now hs hty
    cases hre : resolveEntity cache ty opts.id opt with
    | none =>
      refine ⟨0, emptyReadResult opts.select, ?_⟩
      unfold executeRead
      simp only [hre]
    | some entity =>
      obtain ⟨n, r, h⟩ := (traverseTerm cache opt hs
        (muMeasure cache opt (getSelectionSet opts.select ty) [])).1
        (getSelectionSet opts.select ty)
        ⟨cache, -1, [], false, [], [], opt, [], opts.select⟩
        entity.id (some ty) (le_refl _) rfl rfl
        (fun t ht => by cases ht; exact hty)
      obtain ⟨v, c2⟩ := r
      have hiss : (executeRead n cache ty opt opts now).isSome = true := by
        unfold executeRead
        simp only [hre]
        rw [h]
        rfl
      obtain ⟨res, hres⟩ := Option.isSome_iff_exists.mp hiss
      exact ⟨n, res, hres⟩
  · intro ctx e
    rw [memoCtx_fullEntityResults, memoListStep_append]
    rfl
  · intro fuel ctx k ty e hget hcon
    rw [traverseEntity_succ]
    simp only [hget]
    rw [if_pos (by
      simp only [Option.isNone_none, Bool.true_and]
      exact hcon)]

/-- Witness for C1: on the concrete cyclic store `fixCache` (entity `A`
references `B`, `B` references back to `A`) the read terminates, the
memoization step appends the entity id, and a revisit returns the
memoized marker unchanged. -/
theorem C1_memoized_termination_witness :
    (∃ n res, executeRead n fixCache fixTyA false ⟨none, none⟩ 0 = some res)
    ∧ (memoCtx fixCtx (some fixEntA) none).fullEntityResults =
        fixCtx.fullEntityResults ++ [fixEntA.id]
    ∧ traverseEntity (0 + 1) { fixCtx with fullEntityResults := ["A"] } "A"
        (some fixTyA) none =
        some (.cyc fixEntA.id, { fixCtx with fullEntityResults := ["A"] }) :=
  ⟨C1_memoized_termination.1 fixCache fixTyA false ⟨none, none⟩ 0 rfl
    (TypeOK.object (some "A") [] (fun p hp => absurd hp (List.not_mem_nil p))),
   C1_memoized_termination.2.1 fixCtx fixEntA,
   C1_memoized_termination.2.2 0 { fixCtx with fullEntityResults := ["A"] }
    "A" (some fixTyA) fixEntA rfl rfl⟩

end NCache
